import Mathlib

/-!
Verification of the multi-extruder tool-ordering and filament-grouping engine
(`ToolOrdering.cpp` / `WipingExtrusions`) of the BambuStudio slicer.

The embedding models extruder/filament ids as `ℕ`, print heights and extrusion
volumes as exact rationals `ℚ`, and the configuration as plain structures
carrying the fields the embedded functions read.  Each definition is a direct
translation of the corresponding C++ function; loops over indices become
structural recursions over lists.
-/

namespace ToolOrd

/-- `EPSILON` from `libslic3r.h` (`1e-4`), as an exact rational. -/
def EPS : ℚ := 1 / 10000

/-- `ConfigOptionVector::get_at`: `values[i]` when in range, else the front
element, else the type default. -/
def getAt {α : Type} (l : List α) (d : α) (i : ℕ) : α :=
  l.getD i (l.headD d)

/-! ### C1: `ToolOrdering::fill_wipe_tower_partitions`, first two passes

Lines 752-762 count the minimum number of tool changes per layer; lines
764-766 propagate the counts downward by a reverse suffix-max loop.  A layer
is represented by its (ordered) list of extruder ids. -/

/-- First pass of `ToolOrdering::fill_wipe_tower_partitions`: per layer,
`wipe_tower_partitions = extruders.size()`, decremented by one when the layer
is nonempty and the tracked `last_extruder` is unset (`size_t(-1)`, modelled
as `none`) or equals the layer's first extruder; a nonempty layer updates
`last_extruder` to its back. -/
def initWtp : Option ℕ → List (List ℕ) → List ℕ
  | _, [] => []
  | last, es :: rest =>
    let n := es.length
    let p : ℕ :=
      match es.head? with
      | none => n
      | some f => if last = none ∨ last = some f then n - 1 else n
    let last' : Option ℕ := if es.isEmpty then last else es.getLast?
    p :: initWtp last' rest

/-- Second pass of `ToolOrdering::fill_wipe_tower_partitions`: the reverse
loop `wtp[i] = max(wtp[i+1], wtp[i])` for `i` from `n-2` down to `0`,
i.e. each entry becomes the max of itself and the already-propagated entry
above it. -/
def propagateWtp : List ℕ → List ℕ
  | [] => []
  | p :: rest =>
    let r := propagateWtp rest
    (match r.head? with
     | none => p
     | some q => max p q) :: r

/-- The composition of the two passes of
`ToolOrdering::fill_wipe_tower_partitions` that compute the per-layer
`wipe_tower_partitions` values. -/
def fill_wipe_tower_partitions (layers : List (List ℕ)) : List ℕ :=
  propagateWtp (initWtp none layers)

/-- The last extruder of the last nonempty layer of the list (starting from a
carried value), i.e. the "last extruder used by a layer printed before". -/
def lastPrinting : Option ℕ → List (List ℕ) → Option ℕ
  | last, [] => last
  | last, es :: rest => lastPrinting (if es.isEmpty then last else es.getLast?) rest

/-- The per-layer value the claim says the first pass assigns: extruder count
minus one when no layer printed before layer `i` or the previous printing
layer's last extruder equals layer `i`'s first extruder, else the extruder
count. -/
def wtpSpecAt (layers : List (List ℕ)) (i : ℕ) : ℕ :=
  let es := layers.getD i []
  let prev := lastPrinting none (layers.take i)
  if prev = none ∨ prev = es.head? then es.length - 1 else es.length

theorem initWtp_length (last : Option ℕ) (layers : List (List ℕ)) :
    (initWtp last layers).length = layers.length := by
  induction layers generalizing last with
  | nil => rfl
  | cons es rest ih => simp [initWtp, ih]

theorem propagateWtp_length (l : List ℕ) : (propagateWtp l).length = l.length := by
  induction l with
  | nil => rfl
  | cons p rest ih => simp [propagateWtp, ih]

theorem initWtp_getD (last : Option ℕ) (layers : List (List ℕ)) (i : ℕ) (hi : i < layers.length) :
    (initWtp last layers).getD i 0 =
      (let es := layers.getD i []
       let prev := lastPrinting last (layers.take i)
       if prev = none ∨ prev = es.head? then es.length - 1 else es.length) := by
  induction layers generalizing last i with
  | nil => simp at hi
  | cons es rest ih =>
    cases i with
    | zero =>
      simp only [initWtp, List.getD_cons_zero, List.take_zero, lastPrinting]
      cases h : es.head? with
      | none =>
        have : es = [] := List.head?_eq_none_iff.mp h
        subst this
        simp
      | some f => simp [h]
    | succ j =>
      have hj : j < rest.length := by simpa using hi
      simp only [initWtp, List.getD_cons_succ, List.take_succ_cons, lastPrinting]
      exact ih _ j hj

theorem propagateWtp_getD_last (l : List ℕ) (i : ℕ) (hi : i + 1 = l.length) :
    (propagateWtp l).getD i 0 = l.getD i 0 := by
  induction l generalizing i with
  | nil => simp at hi
  | cons p rest ih =>
    cases i with
    | zero =>
      have : rest = [] := by
        cases rest with
        | nil => rfl
        | cons a t => simp at hi
      subst this
      simp [propagateWtp]
    | succ j =>
      have hj : j + 1 = rest.length := by simpa using hi
      simp only [propagateWtp, List.getD_cons_succ]
      exact ih j hj

theorem propagateWtp_getD (l : List ℕ) (i : ℕ) (hi : i + 1 < l.length) :
    (propagateWtp l).getD i 0 =
      max (l.getD i 0) ((propagateWtp l).getD (i + 1) 0) := by
  induction l generalizing i with
  | nil => simp at hi
  | cons p rest ih =>
    cases i with
    | zero =>
      have hrest : rest ≠ [] := by
        intro h; subst h; simp at hi
      cases hpr : propagateWtp rest with
      | nil =>
        exfalso
        have hlen := propagateWtp_length rest
        rw [hpr] at hlen
        exact hrest (List.length_eq_zero.mp hlen.symm)
      | cons a t =>
        simp [propagateWtp, hpr]
    | succ j =>
      have hj : j + 1 < rest.length := by simpa using hi
      simp only [propagateWtp, List.getD_cons_succ]
      exact ih j hj

/-- Claim C1: after `fill_wipe_tower_partitions` runs, each layer's
`wipe_tower_partitions` starts from its extruder count, minus one when the
previous printing layer's last extruder equals the layer's first extruder (or
no layer printed before it), and each layer's final value is the maximum of
that count and the final value of the layer immediately above, so the value
of a lower layer is always at least the value of the layer above it. -/
theorem fill_wipe_tower_partitions_correct (layers : List (List ℕ)) (i : ℕ)
    (h : i + 1 < (fill_wipe_tower_partitions layers).length) :
    (fill_wipe_tower_partitions layers).length = layers.length ∧
    (fill_wipe_tower_partitions layers).getD i 0 =
      max (wtpSpecAt layers i) ((fill_wipe_tower_partitions layers).getD (i + 1) 0) ∧
    (fill_wipe_tower_partitions layers).getD (i + 1) 0 ≤
      (fill_wipe_tower_partitions layers).getD i 0 := by
  have hlen : (fill_wipe_tower_partitions layers).length = layers.length := by
    unfold fill_wipe_tower_partitions
    rw [propagateWtp_length, initWtp_length]
  have hi : i < layers.length := by omega
  have hinit : (initWtp none layers).getD i 0 = wtpSpecAt layers i := by
    rw [initWtp_getD none layers i hi]; rfl
  have hmax : (fill_wipe_tower_partitions layers).getD i 0 =
      max (wtpSpecAt layers i) ((fill_wipe_tower_partitions layers).getD (i + 1) 0) := by
    unfold fill_wipe_tower_partitions
    rw [propagateWtp_getD _ i (by rw [initWtp_length]; omega), hinit]
  refine ⟨hlen, hmax, ?_⟩
  rw [hmax]
  exact le_max_right _ _

/-- Witness for C1 at a concrete input: three layers `[[1,2],[2],[1]]`. -/
theorem fill_wipe_tower_partitions_correct_witness :
    0 + 1 < (fill_wipe_tower_partitions [[1, 2], [2], [1]]).length ∧
    ((fill_wipe_tower_partitions [[1, 2], [2], [1]]).length = 3 ∧
     (fill_wipe_tower_partitions [[1, 2], [2], [1]]).getD 0 0 =
       max (wtpSpecAt [[1, 2], [2], [1]] 0)
         ((fill_wipe_tower_partitions [[1, 2], [2], [1]]).getD 1 0) ∧
     (fill_wipe_tower_partitions [[1, 2], [2], [1]]).getD 1 0 ≤
       (fill_wipe_tower_partitions [[1, 2], [2], [1]]).getD 0 0) :=
  ⟨by decide, fill_wipe_tower_partitions_correct [[1, 2], [2], [1]] 0 (by decide)⟩

/-! ### C8: `ToolOrdering::initialize_layers`

`sort_remove_duplicates(zs)` sorts and deduplicates the heights, then the
merge loop collapses each run of heights within `EPSILON` of the run's first
height into one record whose `print_z` is `0.5 * (zs[i] + zs[j-1])`. -/

/-- Insertion into a sorted duplicate-free list (used to model
`sort_remove_duplicates`). -/
def insertSorted {α : Type} [LinearOrder α] (x : α) : List α → List α
  | [] => [x]
  | y :: r => if x < y then x :: y :: r else if x = y then y :: r else y :: insertSorted x r

/-- `sort_remove_duplicates`: sort ascending and drop duplicates. -/
def sort_remove_duplicates {α : Type} [LinearOrder α] (l : List α) : List α :=
  l.foldr insertSorted []

theorem mem_insertSorted {α : Type} [LinearOrder α] (x a : α) (l : List α) :
    a ∈ insertSorted x l ↔ a = x ∨ a ∈ l := by
  induction l with
  | nil => simp [insertSorted]
  | cons y r ih =>
    by_cases h1 : x < y
    · simp [insertSorted, h1]
    · by_cases h2 : x = y
      · subst h2
        have he : insertSorted x (x :: r) = x :: r := by
          simp [insertSorted, h1]
        rw [he]
        simp only [List.mem_cons]
        tauto
      · simp only [insertSorted, if_neg h1, if_neg h2, List.mem_cons, ih]
        tauto

theorem sorted_insertSorted {α : Type} [LinearOrder α] (x : α) (l : List α)
    (h : List.Pairwise (· < ·) l) : List.Pairwise (· < ·) (insertSorted x l) := by
  induction l with
  | nil => simp [insertSorted]
  | cons y r ih =>
    rcases List.pairwise_cons.mp h with ⟨hy, hr⟩
    by_cases h1 : x < y
    · simp only [insertSorted, if_pos h1]
      refine List.pairwise_cons.mpr ⟨?_, h⟩
      intro b hb
      rcases List.mem_cons.mp hb with rfl | hb
      · exact h1
      · exact lt_trans h1 (hy b hb)
    · by_cases h2 : x = y
      · subst h2
        have he : insertSorted x (x :: r) = x :: r := by
          simp [insertSorted, h1]
        rw [he]
        exact h
      · have hyx : y < x := lt_of_le_of_ne (not_lt.mp h1) (Ne.symm h2)
        simp only [insertSorted, if_neg h1, if_neg h2]
        refine List.pairwise_cons.mpr ⟨?_, ih hr⟩
        intro b hb
        rcases (mem_insertSorted x b r).mp hb with rfl | hb
        · exact hyx
        · exact hy b hb

theorem sorted_sort_remove_duplicates {α : Type} [LinearOrder α] (l : List α) :
    List.Pairwise (· < ·) (sort_remove_duplicates l) := by
  induction l with
  | nil => simp [sort_remove_duplicates]
  | cons x r ih => exact sorted_insertSorted x _ ih

theorem mem_sort_remove_duplicates {α : Type} [LinearOrder α] (a : α) (l : List α) :
    a ∈ sort_remove_duplicates l ↔ a ∈ l := by
  induction l with
  | nil => simp [sort_remove_duplicates]
  | cons x r ih =>
    simp only [sort_remove_duplicates, List.foldr_cons, List.mem_cons]
    rw [mem_insertSorted]
    simp only [sort_remove_duplicates] at ih
    rw [ih]

/-- The merge loop of `ToolOrdering::initialize_layers` on the sorted list:
`z` is the anchor `zs[i]`, `lastv` the last height seen in the current run
(`zs[j-1]`); a height within `zs[i] + EPSILON` extends the run, otherwise the
record `0.5 * (zs[i] + zs[j-1])` is emitted and a new run starts. -/
def mergeGo : ℚ → ℚ → List ℚ → List ℚ
  | z, lastv, [] => [(z + lastv) / 2]
  | z, lastv, y :: r =>
    if y ≤ z + EPS then mergeGo z y r
    else ((z + lastv) / 2) :: mergeGo y y r

/-- `ToolOrdering::initialize_layers`: sort, deduplicate, then merge
numerically close heights into averaged records. -/
def initialize_layers (zs : List ℚ) : List ℚ :=
  match sort_remove_duplicates zs with
  | [] => []
  | z :: rest => mergeGo z z rest

theorem mergeGo_sorted_bounded (l : List ℚ) : ∀ z lastv : ℚ,
    List.Pairwise (· < ·) (lastv :: l) → z ≤ lastv → lastv ≤ z + EPS →
    List.Pairwise (· < ·) (mergeGo z lastv l) ∧
      ∀ r ∈ mergeGo z lastv l, (z + lastv) / 2 ≤ r := by
  induction l with
  | nil =>
    intro z lastv _ _ _
    simp [mergeGo]
  | cons y r ih =>
    intro z lastv hs hzl hle
    rcases List.pairwise_cons.mp hs with ⟨hlt, hsr⟩
    have hly : lastv < y := hlt y (by simp)
    by_cases hy : y ≤ z + EPS
    · have h1 := ih z y hsr (le_trans hzl hly.le) hy
      refine ⟨by simpa [mergeGo, hy] using h1.1, ?_⟩
      intro s hsmem
      have : (z + y) / 2 ≤ s := h1.2 s (by simpa [mergeGo, hy] using hsmem)
      have : (z + lastv) / 2 ≤ (z + y) / 2 := by linarith
      linarith [h1.2 s (by simpa [mergeGo, hy] using hsmem)]
    · have hyy : y ≤ y + EPS := by
        have : (0 : ℚ) ≤ EPS := by norm_num [EPS]
        linarith
      have h1 := ih y y hsr le_rfl hyy
      have hrep : (z + lastv) / 2 < y := by
        have : ¬ y ≤ z + EPS := hy
        have h2 : z + EPS < y := not_le.mp this
        have : (z + lastv) / 2 ≤ z + EPS / 2 := by linarith
        have hE : (0 : ℚ) < EPS := by norm_num [EPS]
        linarith
      simp only [mergeGo, if_neg hy]
      constructor
      · refine List.pairwise_cons.mpr ⟨?_, h1.1⟩
        intro s hsmem
        have hys : y ≤ s := by linarith [h1.2 s hsmem]
        linarith
      · intro s hsmem
        rcases List.mem_cons.mp hsmem with rfl | hsmem2
        · exact le_rfl
        · have := h1.2 s hsmem2
          linarith

theorem mergeGo_covers (l : List ℚ) : ∀ z lastv : ℚ,
    List.Pairwise (· < ·) (lastv :: l) → z ≤ lastv → lastv ≤ z + EPS →
    (∀ x : ℚ, z ≤ x → x ≤ lastv → ∃ r ∈ mergeGo z lastv l, |r - x| ≤ EPS) ∧
      ∀ x ∈ l, ∃ r ∈ mergeGo z lastv l, |r - x| ≤ EPS := by
  induction l with
  | nil =>
    intro z lastv _ hzl hle
    refine ⟨?_, by simp⟩
    intro x hzx hxl
    refine ⟨(z + lastv) / 2, by simp [mergeGo], ?_⟩
    rw [abs_le]
    constructor <;> linarith
  | cons y r ih =>
    intro z lastv hs hzl hle
    rcases List.pairwise_cons.mp hs with ⟨hlt, hsr⟩
    have hly : lastv < y := hlt y (by simp)
    by_cases hy : y ≤ z + EPS
    · have h1 := ih z y hsr (le_trans hzl hly.le) hy
      refine ⟨?_, ?_⟩
      · intro x hzx hxl
        rcases h1.1 x hzx (le_trans hxl hly.le) with ⟨s, hsm, hd⟩
        exact ⟨s, by simpa [mergeGo, hy] using hsm, hd⟩
      · intro x hx
        rcases List.mem_cons.mp hx with rfl | hx2
        · rcases h1.1 x (le_trans hzl hly.le) le_rfl with ⟨s, hsm, hd⟩
          exact ⟨s, by simpa [mergeGo, hy] using hsm, hd⟩
        · rcases h1.2 x hx2 with ⟨s, hsm, hd⟩
          exact ⟨s, by simpa [mergeGo, hy] using hsm, hd⟩
    · have hyy : y ≤ y + EPS := by
        have : (0 : ℚ) ≤ EPS := by norm_num [EPS]
        linarith
      have h1 := ih y y hsr le_rfl hyy
      refine ⟨?_, ?_⟩
      · intro x hzx hxl
        refine ⟨(z + lastv) / 2, by simp [mergeGo, hy], ?_⟩
        rw [abs_le]
        constructor <;> linarith
      · intro x hx
        rcases List.mem_cons.mp hx with rfl | hx2
        · rcases h1.1 x le_rfl le_rfl with ⟨s, hsm, hd⟩
          exact ⟨s, by simp only [mergeGo, if_neg hy]; exact List.mem_cons_of_mem _ hsm, hd⟩
        · rcases h1.2 x hx2 with ⟨s, hsm, hd⟩
          exact ⟨s, by simp only [mergeGo, if_neg hy]; exact List.mem_cons_of_mem _ hsm, hd⟩

/-- Counterexample to claim C8 as stated: at heights
`[0, 1/50000, 1/12500, 3/20000]` (`0, 2e-5, 8e-5, 1.5e-4`), the first merged
record is `1/25000 = 0.5*(0 + 8e-5)`, which is not the average
`(0 + 2e-5 + 8e-5)/3` of the three merged heights, and the heights `8e-5`
and `1.5e-4` lie within `EPSILON` of each other yet end up in different
records. -/
theorem initialize_layers_average_cex :
    initialize_layers [0, 1 / 50000, 1 / 12500, 3 / 20000] = [1 / 25000, 3 / 20000] ∧
    (1 / 25000 : ℚ) ≠ ((0 : ℚ) + 1 / 50000 + 1 / 12500) / 3 ∧
    |(3 / 20000 : ℚ) - 1 / 12500| ≤ EPS := by
  refine ⟨?_, by norm_num, by rw [abs_le]; norm_num [EPS]⟩
  norm_num [initialize_layers, sort_remove_duplicates, insertSorted, mergeGo, EPS]

/-- Claim C8 (amended): `initialize_layers` merges each maximal run of
sorted deduplicated heights lying within `EPSILON` of the run's lowest height
into one record at the midpoint of the run's lowest and highest heights; the
record sequence is strictly increasing (hence duplicate-free) and every input
height lies within `EPSILON` of some record; the output is a deterministic
function of the input heights. -/
theorem initialize_layers_correct (zs : List ℚ) :
    List.Pairwise (· < ·) (initialize_layers zs) ∧
    ∀ z ∈ sort_remove_duplicates zs, ∃ r ∈ initialize_layers zs, |r - z| ≤ EPS := by
  unfold initialize_layers
  cases hs : sort_remove_duplicates zs with
  | nil => simp
  | cons z rest =>
    have hsorted : List.Pairwise (· < ·) (z :: rest) := by
      rw [← hs]; exact sorted_sort_remove_duplicates zs
    have hEPS : z ≤ z + EPS := by
      have : (0 : ℚ) ≤ EPS := by norm_num [EPS]
      linarith
    refine ⟨(mergeGo_sorted_bounded rest z z hsorted le_rfl hEPS).1, ?_⟩
    intro x hx
    have hcov := mergeGo_covers rest z z hsorted le_rfl hEPS
    rcases List.mem_cons.mp hx with rfl | hx2
    · exact hcov.1 x le_rfl le_rfl
    · exact hcov.2 x hx2

/-- Witness for C8 at a concrete input. -/
theorem initialize_layers_correct_witness :
    ∃ r ∈ initialize_layers [0, 1 / 50000], |r - 0| ≤ EPS :=
  (initialize_layers_correct [0, 1 / 50000]).2 0
    ((mem_sort_remove_duplicates 0 [0, 1 / 50000]).mpr (by norm_num))

/-! ### C10: `WipingExtrusions::set_extruder_override` / `get_extruder_overrides`

The entity map `(ExtrusionEntity*, PrintObject*) -> ExtruderPerCopy` is
modelled as a function from a pair of ids to an optional vector of `ℤ`.
`set_extruder_override` (lines 1387-1399) creates or resizes the per-copy
vector (padding with the sentinel `-1`) and stores the overriding extruder at
`copy_id`.  `get_extruder_overrides` (lines 1682-1693) returns `nullptr`
(modelled `none`) when the key is absent; otherwise it resizes with `-1` and
replaces every remaining `-1` by `-correct_extruder_id - 1`. -/

/-- `std::vector::resize(n, d)`: pad with `d` up to `n`, or truncate to `n`. -/
def resizeFill (v : List ℤ) (n : ℕ) (d : ℤ) : List ℤ :=
  if v.length ≤ n then v ++ List.replicate (n - v.length) d else v.take n

/-- One call to `WipingExtrusions::set_extruder_override`: key = (entity id,
object id), `copy` = the copy index, `extr` = the overriding extruder
(`new_extruder`, unsigned in the source). -/
structure OvOp where
  key : ℕ × ℕ
  copy : ℕ
  extr : ℕ

/-- `WipingExtrusions::set_extruder_override` on the entity map. -/
def set_extruder_override (m : ℕ × ℕ → Option (List ℤ)) (k : ℕ × ℕ) (copy : ℕ)
    (e : ℤ) (n : ℕ) : ℕ × ℕ → Option (List ℤ) :=
  fun k2 => if k2 = k then some ((resizeFill ((m k).getD []) n (-1)).set copy e) else m k2

/-- `WipingExtrusions::get_extruder_overrides`: the updated map (the
replacement happens in place in the source) and the returned vector
(`none` = `nullptr`). -/
def get_extruder_overrides (m : ℕ × ℕ → Option (List ℤ)) (k : ℕ × ℕ) (correct : ℤ)
    (n : ℕ) : (ℕ × ℕ → Option (List ℤ)) × Option (List ℤ) :=
  match m k with
  | none => (m, none)
  | some v =>
    let v2 := (resizeFill v n (-1)).map (fun x => if x = -1 then -correct - 1 else x)
    (fun k2 => if k2 = k then some v2 else m k2, some v2)

/-- The empty entity map. -/
def emptyOverrides : ℕ × ℕ → Option (List ℤ) := fun _ => none

/-- The entity map after a run of `set_extruder_override` calls (all with the
same `num_of_copies`, as `Print::mark_wiping_extrusions` does). -/
def buildOverrides (ops : List OvOp) (n : ℕ) : ℕ × ℕ → Option (List ℤ) :=
  ops.foldl (fun m op => set_extruder_override m op.key op.copy (op.extr : ℤ) n) emptyOverrides

/-- The extruder written by the last `set_extruder_override` call for key `k`
and copy `i`, if any. -/
def lastOverride (ops : List OvOp) (k : ℕ × ℕ) (i : ℕ) : Option ℕ :=
  ((ops.filter (fun o => o.key = k ∧ o.copy = i)).getLast?).map OvOp.extr

theorem resizeFill_length (v : List ℤ) (n : ℕ) (d : ℤ) : (resizeFill v n d).length = n := by
  unfold resizeFill
  by_cases h : v.length ≤ n
  · rw [if_pos h]
    simp only [List.length_append, List.length_replicate]
    omega
  · rw [if_neg h]
    simp only [List.length_take]
    omega

theorem resizeFill_of_length_eq (v : List ℤ) (n : ℕ) (d : ℤ) (h : v.length = n) :
    resizeFill v n d = v := by
  unfold resizeFill
  rw [if_pos (le_of_eq h)]
  simp [h]

theorem getD_set_self {α : Type} (l : List α) (i : ℕ) (a d : α) (h : i < l.length) :
    (l.set i a).getD i d = a := by
  induction l generalizing i with
  | nil => simp at h
  | cons x r ih =>
    cases i with
    | zero => simp
    | succ j =>
      have : j < r.length := by simpa using h
      simpa using ih j this

theorem getD_set_other {α : Type} (l : List α) (i j : ℕ) (a d : α) (h : i ≠ j) :
    (l.set i a).getD j d = l.getD j d := by
  induction l generalizing i j with
  | nil => simp
  | cons x r ih =>
    cases i with
    | zero =>
      cases j with
      | zero => exact absurd rfl h
      | succ j2 => simp
    | succ i2 =>
      cases j with
      | zero => simp
      | succ j2 =>
        have : i2 ≠ j2 := by omega
        simpa using ih i2 j2 this

theorem getD_map_of_lt (f : ℤ → ℤ) (l : List ℤ) (i : ℕ) (d : ℤ) (h : i < l.length) :
    (l.map f).getD i d = f (l.getD i d) := by
  induction l generalizing i with
  | nil => simp at h
  | cons x r ih =>
    cases i with
    | zero => simp
    | succ j =>
      have : j < r.length := by simpa using h
      simpa using ih j this

theorem getD_replicate {α : Type} (n i : ℕ) (a d : α) (h : i < n) :
    (List.replicate n a).getD i d = a := by
  induction n generalizing i with
  | zero => omega
  | succ m ih =>
    cases i with
    | zero => simp [List.replicate]
    | succ j =>
      have : j < m := by omega
      simpa [List.replicate] using ih j this

theorem lastOverride_concat (ops : List OvOp) (op : OvOp) (k : ℕ × ℕ) (i : ℕ) :
    lastOverride (ops ++ [op]) k i =
      if op.key = k ∧ op.copy = i then some op.extr else lastOverride ops k i := by
  unfold lastOverride
  rw [List.filter_append]
  by_cases h : op.key = k ∧ op.copy = i
  · have : [op].filter (fun o => o.key = k ∧ o.copy = i) = [op] := by
      simp [List.filter, h.1, h.2]
    rw [this, if_pos h, List.getLast?_concat]
    rfl
  · have hfil : [op].filter (fun o => o.key = k ∧ o.copy = i) = [] := by
      apply List.filter_eq_nil_iff.mpr
      intro o ho
      have : o = op := by simpa using ho
      subst this
      simpa using h
    rw [hfil, List.append_nil, if_neg h]

theorem buildOverrides_concat (ops : List OvOp) (op : OvOp) (n : ℕ) :
    buildOverrides (ops ++ [op]) n =
      set_extruder_override (buildOverrides ops n) op.key op.copy (op.extr : ℤ) n := by
  unfold buildOverrides
  rw [List.foldl_append]
  rfl

theorem set_extruder_override_apply (m : ℕ × ℕ → Option (List ℤ)) (k : ℕ × ℕ)
    (copy : ℕ) (e : ℤ) (n : ℕ) (k2 : ℕ × ℕ) :
    set_extruder_override m k copy e n k2 =
      if k2 = k then some ((resizeFill ((m k).getD []) n (-1)).set copy e) else m k2 := rfl

theorem get_extruder_overrides_of_none (m : ℕ × ℕ → Option (List ℤ)) (k : ℕ × ℕ)
    (correct : ℤ) (n : ℕ) (h : m k = none) :
    (get_extruder_overrides m k correct n).2 = none := by
  unfold get_extruder_overrides
  rw [h]

theorem get_extruder_overrides_of_some (m : ℕ × ℕ → Option (List ℤ)) (k : ℕ × ℕ)
    (correct : ℤ) (n : ℕ) (w : List ℤ) (h : m k = some w) :
    (get_extruder_overrides m k correct n).2 =
      some ((resizeFill w n (-1)).map (fun x => if x = -1 then -correct - 1 else x)) := by
  unfold get_extruder_overrides
  rw [h]

theorem buildOverrides_char (n : ℕ) (ops : List OvOp) (hn : ∀ o ∈ ops, o.copy < n)
    (k : ℕ × ℕ) :
    (buildOverrides ops n k = none ↔ ∀ o ∈ ops, o.key ≠ k) ∧
    ∀ v, buildOverrides ops n k = some v → v.length = n ∧
      ∀ i, i < n → v.getD i 0 = (match lastOverride ops k i with
                                 | some e => (e : ℤ)
                                 | none => -1) := by
  induction ops using List.reverseRecOn with
  | nil =>
    refine ⟨by simp [buildOverrides, emptyOverrides], ?_⟩
    intro v hv
    simp [buildOverrides, emptyOverrides] at hv
  | append_singleton ops op ih =>
    have hn2 : ∀ o ∈ ops, o.copy < n := fun o ho => hn o (by simp [ho])
    have hcopy : op.copy < n := hn op (by simp)
    rcases ih hn2 with ⟨ihnone, ihval⟩
    rw [buildOverrides_concat, set_extruder_override_apply]
    by_cases hk : k = op.key
    · rw [if_pos hk, ← hk]
      constructor
      · constructor
        · intro h
          simp at h
        · intro hall
          exact absurd hk.symm (hall op (by simp))
      · intro v hv
        have hv2 : v = (resizeFill ((buildOverrides ops n k).getD []) n (-1)).set op.copy
            ((op.extr : ℤ)) := (Option.some_inj.mp hv).symm
        have hbase : ∀ i, i < n →
            (resizeFill ((buildOverrides ops n k).getD []) n (-1)).getD i 0 =
              (match lastOverride ops k i with
               | some e => (e : ℤ)
               | none => -1) := by
          intro i hi
          cases hb : buildOverrides ops n k with
          | none =>
            have hempty : lastOverride ops k i = none := by
              have hnone := ihnone.mp hb
              unfold lastOverride
              have hfil : ops.filter (fun o => o.key = k ∧ o.copy = i) = [] := by
                apply List.filter_eq_nil_iff.mpr
                intro o ho
                simp only [Bool.decide_and, Bool.and_eq_true, decide_eq_true_eq, not_and]
                intro hko
                exact absurd hko (hnone o ho)
              rw [hfil]
              rfl
            rw [hempty]
            simp only [Option.getD_none]
            unfold resizeFill
            simp only [List.length_nil, Nat.zero_le, if_pos, List.nil_append, Nat.sub_zero]
            exact getD_replicate n i (-1) 0 hi
          | some w =>
            rcases ihval w hb with ⟨hwlen, hwval⟩
            simp only [Option.getD_some]
            rw [resizeFill_of_length_eq w n (-1) hwlen]
            exact hwval i hi
        have hlen : v.length = n := by
          rw [hv2, List.length_set, resizeFill_length]
        refine ⟨hlen, ?_⟩
        intro i hi
        rw [lastOverride_concat]
        by_cases hio : op.copy = i
        · subst hio
          rw [if_pos ⟨hk.symm, rfl⟩, hv2]
          rw [getD_set_self _ _ _ _ (by rw [resizeFill_length]; exact hcopy)]
        · rw [if_neg (by tauto), hv2, getD_set_other _ _ _ _ _ hio]
          exact hbase i hi
    · rw [if_neg hk]
      constructor
      · rw [ihnone]
        constructor
        · intro h o ho
          rcases List.mem_append.mp ho with ho2 | ho2
          · exact h o ho2
          · have : o = op := by simpa using ho2
            subst this
            exact fun he => hk he.symm
        · intro h o ho
          exact h o (by simp [ho])
      · intro v hv
        rcases ihval v hv with ⟨hlen, hval⟩
        refine ⟨hlen, ?_⟩
        intro i hi
        rw [lastOverride_concat, if_neg (by exact fun hc2 => hk hc2.1.symm)]
        exact hval i hi

/-- Claim C10: `get_extruder_overrides` returns `nullptr` exactly when no copy
of the entity/object pair was ever overridden; otherwise it returns a vector
of length `num_of_copies` in which every overridden copy holds its overriding
extruder id (a value `≥ 0`, the last one written for that copy) and every
non-overridden copy holds `-correct_extruder_id - 1` (a value `< 0`). -/
theorem get_extruder_overrides_correct (ops : List OvOp) (n : ℕ) (k : ℕ × ℕ)
    (correct : ℤ) (hn : ∀ o ∈ ops, o.copy < n) (hc : 0 ≤ correct) :
    ((get_extruder_overrides (buildOverrides ops n) k correct n).2 = none ↔
       ∀ o ∈ ops, o.key ≠ k) ∧
    ∀ v, (get_extruder_overrides (buildOverrides ops n) k correct n).2 = some v →
      v.length = n ∧
      ∀ i, i < n →
        (∀ e, lastOverride ops k i = some e → v.getD i 0 = (e : ℤ) ∧ 0 ≤ v.getD i 0) ∧
        (lastOverride ops k i = none → v.getD i 0 = -correct - 1 ∧ v.getD i 0 < 0) := by
  rcases buildOverrides_char n ops hn k with ⟨hnone, hval⟩
  cases hb : buildOverrides ops n k with
  | none =>
    rw [get_extruder_overrides_of_none _ _ _ _ hb]
    refine ⟨by simpa using hnone.mp hb, ?_⟩
    intro v hv
    simp at hv
  | some w =>
    rcases hval w hb with ⟨hwlen, hwval⟩
    rw [get_extruder_overrides_of_some _ _ _ _ w hb]
    constructor
    · constructor
      · intro h
        simp at h
      · intro hall
        have : buildOverrides ops n k = none := hnone.mpr hall
        rw [hb] at this
        simp at this
    · intro v hv
      have hv2 : v = (resizeFill w n (-1)).map
          (fun x => if x = -1 then -correct - 1 else x) := (Option.some_inj.mp hv).symm
      rw [resizeFill_of_length_eq w n (-1) hwlen] at hv2
      have hlen : v.length = n := by rw [hv2, List.length_map, hwlen]
      refine ⟨hlen, ?_⟩
      intro i hi
      have hmap : v.getD i 0 = (fun x => if x = -1 then -correct - 1 else x) (w.getD i 0) := by
        rw [hv2]
        exact getD_map_of_lt _ w i 0 (by rw [hwlen]; exact hi)
      constructor
      · intro e he
        have hw : w.getD i 0 = (e : ℤ) := by rw [hwval i hi, he]
        have hne : ((e : ℕ) : ℤ) ≠ -1 := by omega
        have hval2 : v.getD i 0 = (e : ℤ) := by
          rw [hmap, hw]
          simp [hne]
        exact ⟨hval2, by rw [hval2]; omega⟩
      · intro he
        have hw : w.getD i 0 = -1 := by rw [hwval i hi, he]
        have hval2 : v.getD i 0 = -correct - 1 := by
          rw [hmap, hw]
          simp
        exact ⟨hval2, by rw [hval2]; omega⟩

/-- Witness for C10: one override of copy 0 of entity/object `(1, 2)` with
extruder 3, queried with `correct_extruder_id = 0` and two copies. -/
theorem get_extruder_overrides_correct_witness :
    (∀ o ∈ [OvOp.mk (1, 2) 0 3], o.copy < 2) ∧ (0 : ℤ) ≤ 0 ∧
    (((get_extruder_overrides (buildOverrides [OvOp.mk (1, 2) 0 3] 2) (1, 2) 0 2).2 = none ↔
       ∀ o ∈ [OvOp.mk (1, 2) 0 3], o.key ≠ (1, 2)) ∧
     ∀ v, (get_extruder_overrides (buildOverrides [OvOp.mk (1, 2) 0 3] 2) (1, 2) 0 2).2 = some v →
       v.length = 2 ∧
       ∀ i, i < 2 →
         (∀ e, lastOverride [OvOp.mk (1, 2) 0 3] (1, 2) i = some e →
            v.getD i 0 = (e : ℤ) ∧ 0 ≤ v.getD i 0) ∧
         (lastOverride [OvOp.mk (1, 2) 0 3] (1, 2) i = none →
            v.getD i 0 = -(0 : ℤ) - 1 ∧ v.getD i 0 < 0)) :=
  ⟨by decide, le_refl 0,
   get_extruder_overrides_correct [OvOp.mk (1, 2) 0 3] 2 (1, 2) 0 (by decide) (le_refl 0)⟩

/-! ### C4 / C5: `ToolOrdering::reorder_extruders(unsigned int last_extruder_id)`

Lines 594-658.  At this stage extruder ids are still 1-based; `0` is the
"don't care" sentinel left by `collect_extruders`.  The loop carries
`last_extruder_id` forward, resolves the sentinel, pops a leading sentinel of
a longer list, moves the carried extruder to the front when present, and on
the first layer (when a print config with `enable_prime_tower` is available)
prefers a soluble extruder at the front.  Lines 649-654 then decrement every
id once, making the lists zero-based. -/

/-- The parts of the print config read by `reorder_extruders`. -/
structure ReorderCfg where
  hasPrintConfig : Bool
  enable_prime_tower : Bool
  filament_soluble : List Bool

/-- First index satisfying `p` (the C++ `for` search loops with `break`). -/
def findFirstIdx {α : Type} (p : α → Bool) : List α → Option ℕ
  | [] => none
  | a :: r => if p a then some 0 else (findFirstIdx p r).map (· + 1)

/-- Lines 628-634: search `i` from 1 for the carried extruder and `memmove`
it to the front, keeping the relative order of the skipped prefix. -/
def moveLastToFront (last : ℕ) (es : List ℕ) : List ℕ :=
  match es with
  | [] => []
  | a :: r => if last ∈ r then last :: a :: r.erase last else a :: r

/-- Lines 638-644: on the first layer with a prime tower, swap the first
soluble extruder (1-based lookup into `filament_soluble`) to the front. -/
def solubleSwapFront (sol : List Bool) (es : List ℕ) : List ℕ :=
  match findFirstIdx (fun e => getAt sol false (e - 1)) es with
  | none => es
  | some i => (es.set 0 (es.getD i 0)).set i (es.getD 0 0)

/-- Lines 618-645, body of the per-layer loop of `reorder_extruders`. -/
def reorderOneLayer (cfg : ReorderCfg) (isFirst : Bool) (last : ℕ) (es : List ℕ) :
    List ℕ :=
  if es = [] then es
  else if es = [0] then [last]
  else
    let es1 := if es.headD 0 = 0 then es.tail else es
    let es2 := moveLastToFront last es1
    if isFirst && cfg.hasPrintConfig && cfg.enable_prime_tower then
      solubleSwapFront cfg.filament_soluble es2
    else es2

/-- The per-layer loop of `reorder_extruders`: each processed layer updates
the carried `last_extruder_id` to its back (kept unchanged for an empty
layer, which the loop `continue`s over). -/
def reorderLoop (cfg : ReorderCfg) (isFirst : Bool) (last : ℕ) :
    List (List ℕ) → List (List ℕ)
  | [] => []
  | es :: rest =>
    let es2 := reorderOneLayer cfg isFirst last es
    es2 :: reorderLoop cfg false (es2.getLastD last) rest

/-- Lines 599-613: when no initial extruder was given, the first nonzero id
used anywhere in the print. -/
def firstNonzeroExtruder (layers : List (List ℕ)) : Option ℕ :=
  layers.flatten.find? (fun e => e ≠ 0)

/-- Lines 649-654: reindex the extruders to be zero based. -/
def reindexExtruders (layers : List (List ℕ)) : List (List ℕ) :=
  layers.map (List.map (fun e => e - 1))

/-- `ToolOrdering::reorder_extruders(unsigned int last_extruder_id)`:
`first_extruder = none` models the `(unsigned int)-1` argument; in that case
the loop seeds from the first nonzero id and returns unchanged when there is
none ("Nothing to extrude"); otherwise the passed id is incremented to
1-based form.  (The trailing `reorder_extruders_for_minimum_flush_volume`
call permutes each layer afterwards and is modelled separately.) -/
def reorder_extruders (cfg : ReorderCfg) (first_extruder : Option ℕ)
    (layers : List (List ℕ)) : List (List ℕ) :=
  if layers = [] then layers
  else
    match first_extruder with
    | some fe => reindexExtruders (reorderLoop cfg true (fe + 1) layers)
    | none =>
      match firstNonzeroExtruder layers with
      | none => layers
      | some l => reindexExtruders (reorderLoop cfg true l layers)

theorem getD_mem_of_lt {α : Type} (l : List α) (i : ℕ) (d : α) (h : i < l.length) :
    l.getD i d ∈ l := by
  induction l generalizing i with
  | nil => simp at h
  | cons a r ih =>
    cases i with
    | zero => simp
    | succ j =>
      have : j < r.length := by simpa using h
      simpa using Or.inr (ih j this)

theorem getLastD_mem_of_ne_nil {α : Type} (l : List α) : ∀ d : α, l ≠ [] →
    l.getLastD d ∈ l := by
  induction l with
  | nil => exact fun d h => absurd rfl h
  | cons a r ih =>
    intro d _
    rw [List.getLastD_cons]
    cases hr : r with
    | nil =>
      subst hr
      simp [List.getLastD]
    | cons b t =>
      subst hr
      exact List.mem_cons_of_mem a (ih a (by simp))

theorem mem_solubleSwapFront (sol : List Bool) (es : List ℕ) (x : ℕ)
    (h : x ∈ solubleSwapFront sol es) : x ∈ es := by
  unfold solubleSwapFront at h
  cases hf : findFirstIdx (fun e => getAt sol false (e - 1)) es with
  | none => rw [hf] at h; exact h
  | some i =>
    rw [hf] at h
    have hi : i < es.length := by
      clear h
      induction es generalizing i with
      | nil => simp [findFirstIdx] at hf
      | cons a r ih =>
        unfold findFirstIdx at hf
        by_cases hp : getAt sol false (a - 1)
        · rw [if_pos hp] at hf
          cases hf
          simp
        · rw [if_neg hp] at hf
          cases hj : findFirstIdx (fun e => getAt sol false (e - 1)) r with
          | none => rw [hj] at hf; simp at hf
          | some j =>
            rw [hj] at hf
            simp at hf
            subst hf
            have := ih j hj
            simp
            omega
    rcases List.mem_or_eq_of_mem_set h with h2 | h2
    · rcases List.mem_or_eq_of_mem_set h2 with h3 | h3
      · exact h3
      · rw [h3]
        exact getD_mem_of_lt es i 0 hi
    · rw [h2]
      exact getD_mem_of_lt es 0 0 (by omega)

theorem mem_moveLastToFront (last x : ℕ) (es : List ℕ)
    (h : x ∈ moveLastToFront last es) : x = last ∨ x ∈ es := by
  cases es with
  | nil => simp [moveLastToFront] at h
  | cons a r =>
    rw [show moveLastToFront last (a :: r) =
        (if last ∈ r then last :: a :: r.erase last else a :: r) from rfl] at h
    by_cases hm : last ∈ r
    · rw [if_pos hm] at h
      rcases List.mem_cons.mp h with rfl | h2
      · exact Or.inl rfl
      · rcases List.mem_cons.mp h2 with rfl | h3
        · exact Or.inr (by simp)
        · exact Or.inr (List.mem_cons_of_mem a (List.mem_of_mem_erase h3))
    · rw [if_neg hm] at h
      exact Or.inr h

theorem headD_moveLastToFront (last : ℕ) (es : List ℕ) (hne : es ≠ [])
    (h : last ∈ es) : (moveLastToFront last es).headD 0 = last := by
  cases es with
  | nil => exact absurd rfl hne
  | cons a r =>
    rw [show moveLastToFront last (a :: r) =
        (if last ∈ r then last :: a :: r.erase last else a :: r) from rfl]
    by_cases hm : last ∈ r
    · rw [if_pos hm]
      rfl
    · rw [if_neg hm]
      rcases List.mem_cons.mp h with rfl | h2
      · rfl
      · exact absurd h2 hm

theorem mem_reorderOneLayer (cfg : ReorderCfg) (isFirst : Bool) (last : ℕ)
    (es : List ℕ) (hs : List.Pairwise (· < ·) es) :
    ∀ x ∈ reorderOneLayer cfg isFirst last es, x = last ∨ (x ∈ es ∧ 1 ≤ x) := by
  intro x hx
  unfold reorderOneLayer at hx
  by_cases h0 : es = []
  · rw [if_pos h0] at hx
    rw [h0] at hx
    simp at hx
  · rw [if_neg h0] at hx
    by_cases h1 : es = [0]
    · rw [if_pos h1] at hx
      simp at hx
      exact Or.inl hx
    · rw [if_neg h1] at hx
      have hes1 : ∀ y, y ∈ (if es.headD 0 = 0 then es.tail else es) → y ∈ es ∧ 1 ≤ y := by
        intro y hy
        by_cases hh : es.headD 0 = 0
        · rw [if_pos hh] at hy
          cases es with
          | nil => exact absurd rfl h0
          | cons a t =>
            have ha : a = 0 := by simpa using hh
            subst ha
            refine ⟨List.mem_cons_of_mem 0 hy, ?_⟩
            have := (List.pairwise_cons.mp hs).1 y hy
            omega
        · rw [if_neg hh] at hy
          refine ⟨hy, ?_⟩
          cases es with
          | nil => exact absurd rfl h0
          | cons a t =>
            have ha : a ≠ 0 := by simpa using hh
            rcases List.mem_cons.mp hy with rfl | hy2
            · omega
            · have := (List.pairwise_cons.mp hs).1 y hy2
              omega
      have hx2 : x ∈ moveLastToFront last (if es.headD 0 = 0 then es.tail else es) := by
        by_cases hswap : (isFirst && cfg.hasPrintConfig && cfg.enable_prime_tower) = true
        · rw [if_pos hswap] at hx
          exact mem_solubleSwapFront _ _ _ hx
        · rw [if_neg hswap] at hx
          exact hx
      rcases mem_moveLastToFront last x _ hx2 with rfl | h3
      · exact Or.inl rfl
      · exact Or.inr (hes1 x h3)

/-- Claim C4: in the reorder loop of `reorder_extruders` (lines 618-647),
the sentinel singleton `[0]` is replaced by the carried last extruder; a
leading sentinel `0` of a longer list is popped before reordering; for a
layer with a previous layer (so no first-layer soluble swap applies), a
layer containing the carried last-used extruder gets it moved to the front;
and the loop carries each processed layer's back as the next carried value. -/
theorem reorder_extruders_layer_rules (cfg : ReorderCfg) (isFirst : Bool) (last : ℕ)
    (es : List ℕ) (b : ℕ) (r : List ℕ) (rest : List (List ℕ)) :
    reorderOneLayer cfg isFirst last [0] = [last] ∧
    (b ≠ 0 → reorderOneLayer cfg isFirst last (0 :: b :: r) =
       reorderOneLayer cfg isFirst last (b :: r)) ∧
    ((isFirst && cfg.hasPrintConfig && cfg.enable_prime_tower) = false →
     es ≠ [] → es ≠ [0] → last ≠ 0 → last ∈ es →
       (reorderOneLayer cfg isFirst last es).headD 0 = last) ∧
    reorderLoop cfg isFirst last (es :: rest) =
      reorderOneLayer cfg isFirst last es ::
        reorderLoop cfg false ((reorderOneLayer cfg isFirst last es).getLastD last) rest := by
  refine ⟨rfl, ?_, ?_, rfl⟩
  · intro hb
    have hne1 : (0 : ℕ) :: b :: r ≠ [] := by simp
    have hne2 : (0 : ℕ) :: b :: r ≠ [0] := by simp
    have hne3 : (b : ℕ) :: r ≠ [] := by simp
    have hne4 : (b : ℕ) :: r ≠ [0] := by simp [hb]
    unfold reorderOneLayer
    rw [if_neg hne1, if_neg hne2, if_neg hne3, if_neg hne4]
    simp [hb]
  · intro hswap hne h1 hl hmem
    unfold reorderOneLayer
    rw [if_neg hne, if_neg h1]
    simp only [hswap, Bool.false_eq_true, if_false]
    have hes1ne : (if es.headD 0 = 0 then es.tail else es) ≠ [] := by
      by_cases hh : es.headD 0 = 0
      · rw [if_pos hh]
        cases es with
        | nil => exact absurd rfl hne
        | cons a t =>
          have : a = 0 := by simpa using hh
          subst this
          cases t with
          | nil => exact absurd rfl h1
          | cons c u => simp
      · rw [if_neg hh]
        exact hne
    have hmem1 : last ∈ (if es.headD 0 = 0 then es.tail else es) := by
      by_cases hh : es.headD 0 = 0
      · rw [if_pos hh]
        cases es with
        | nil => exact absurd rfl hne
        | cons a t =>
          have : a = 0 := by simpa using hh
          subst this
          rcases List.mem_cons.mp hmem with h2 | h2
          · exact absurd h2 hl
          · exact h2
      · rw [if_neg hh]
        exact hmem
    exact headD_moveLastToFront last _ hes1ne hmem1

/-- Witness for C4: layer `[1, 2]` with carried extruder 2 and no soluble
swap; 2 is moved to the front. -/
theorem reorder_extruders_layer_rules_witness :
    (reorderOneLayer (ReorderCfg.mk false false []) false 2 [1, 2]).headD 0 = 2 :=
  (reorder_extruders_layer_rules (ReorderCfg.mk false false []) false 2 [1, 2] 1 [] []).2.2.1
    (by decide) (by decide) (by decide) (by decide) (by decide)

theorem reorderLoop_bounds (n : ℕ) (layers : List (List ℕ)) : ∀ (cfg : ReorderCfg)
    (isFirst : Bool) (last : ℕ),
    (∀ es ∈ layers, ∀ x ∈ es, x ≤ n) →
    (∀ es ∈ layers, List.Pairwise (· < ·) es) →
    1 ≤ last → last ≤ n →
    ∀ es2 ∈ reorderLoop cfg isFirst last layers, ∀ x ∈ es2, 1 ≤ x ∧ x ≤ n := by
  induction layers with
  | nil =>
    intro cfg isFirst last _ _ _ _ es2 hes2
    simp [reorderLoop] at hes2
  | cons es rest ih =>
    intro cfg isFirst last h1 h2 h3 h4 es2 hes2 x hx
    have hmem := mem_reorderOneLayer cfg isFirst last es (h2 es (by simp))
    rcases List.mem_cons.mp hes2 with rfl | h5
    · rcases hmem x hx with rfl | ⟨hxe, hx1⟩
      · exact ⟨h3, h4⟩
      · exact ⟨hx1, h1 es (by simp) x hxe⟩
    · set lastn := (reorderOneLayer cfg isFirst last es).getLastD last with hlastn
      have hb : 1 ≤ lastn ∧ lastn ≤ n := by
        by_cases hc : reorderOneLayer cfg isFirst last es = []
        · rw [hlastn, hc]
          exact ⟨h3, h4⟩
        · have hmem2 : lastn ∈ reorderOneLayer cfg isFirst last es :=
            getLastD_mem_of_ne_nil _ last hc
          rcases hmem lastn hmem2 with he | ⟨hxe, hx1⟩
          · rw [he]
            exact ⟨h3, h4⟩
          · exact ⟨hx1, h1 es (by simp) lastn hxe⟩
      exact ih cfg false lastn (fun a ha => h1 a (by simp [ha]))
        (fun a ha => h2 a (by simp [ha])) hb.1 hb.2 es2 h5 x hx

/-- Claim C5: with well-formed collected input (1-based ids bounded by the
extruder count `n`, each layer sorted strictly as `sort_remove_duplicates`
leaves it), every id produced by `reorder_extruders` lies in `[0, n)`: the
loop keeps the 1-based ids in `[1, n]` and the final reindex pass (lines
649-654) decrements each id exactly once. -/
theorem reorder_extruders_zero_based (cfg : ReorderCfg) (fe? : Option ℕ)
    (layers : List (List ℕ)) (n : ℕ) (hn : 1 ≤ n)
    (h1 : ∀ es ∈ layers, ∀ x ∈ es, x ≤ n)
    (h2 : ∀ es ∈ layers, List.Pairwise (· < ·) es)
    (hfe : ∀ fe, fe? = some fe → fe + 1 ≤ n) :
    (∀ es ∈ reorder_extruders cfg fe? layers, ∀ x ∈ es, x < n) ∧
    (∀ last, 1 ≤ last → last ≤ n →
       ∀ es ∈ reorderLoop cfg true last layers, ∀ x ∈ es, 1 ≤ x ∧ x ≤ n) ∧
    (layers ≠ [] → ∀ fe, fe? = some fe →
       reorder_extruders cfg fe? layers =
         (reorderLoop cfg true (fe + 1) layers).map (List.map (fun e => e - 1))) := by
  have hloop : ∀ last, 1 ≤ last → last ≤ n →
      ∀ es ∈ reorderLoop cfg true last layers, ∀ x ∈ es, 1 ≤ x ∧ x ≤ n :=
    fun last ha hb => reorderLoop_bounds n layers cfg true last h1 h2 ha hb
  have hreidx : ∀ last, 1 ≤ last → last ≤ n →
      ∀ es ∈ reindexExtruders (reorderLoop cfg true last layers), ∀ x ∈ es, x < n := by
    intro last ha hb es hes x hx
    rcases List.mem_map.mp hes with ⟨es0, hes0, rfl⟩
    rcases List.mem_map.mp hx with ⟨y, hy, rfl⟩
    have := hloop last ha hb es0 hes0 y hy
    omega
  refine ⟨?_, hloop, ?_⟩
  · intro es hes x hx
    unfold reorder_extruders at hes
    by_cases hl : layers = []
    · rw [if_pos hl] at hes
      rw [hl] at hes
      simp at hes
    · rw [if_neg hl] at hes
      cases hfe2 : fe? with
      | some fe =>
        rw [hfe2] at hes
        exact hreidx (fe + 1) (by omega) (hfe fe hfe2) es hes x hx
      | none =>
        rw [hfe2] at hes
        cases hz : firstNonzeroExtruder layers with
        | none =>
          rw [hz] at hes
          have hall : ∀ y ∈ layers.flatten, y = 0 := by
            intro y hy
            have := List.find?_eq_none.mp hz y hy
            simpa using this
          have : x = 0 := hall x (List.mem_flatten.mpr ⟨es, hes, hx⟩)
          omega
        | some l =>
          rw [hz] at hes
          have hl1 : l ≠ 0 := by
            have := List.find?_some hz
            simpa using this
          have hl2 : l ≤ n := by
            have hmem := List.mem_of_find?_eq_some hz
            rcases List.mem_flatten.mp hmem with ⟨es0, hes0, hles0⟩
            exact h1 es0 hes0 l hles0
          exact hreidx l (by omega) hl2 es hes x hx
  · intro hlne fe hfe2
    unfold reorder_extruders
    rw [if_neg hlne, hfe2]
    rfl

/-- Witness for C5: two layers `[[1, 2], [0]]` on a 2-extruder printer with
initial extruder 0. -/
theorem reorder_extruders_zero_based_witness :
    (reorder_extruders (ReorderCfg.mk false false []) (some 0)
      [[1, 2], [0]]).all (fun es => es.all (fun x => decide (x < 2)))
      = true := by
  have h := (reorder_extruders_zero_based (ReorderCfg.mk false false [])
    (some 0) [[1, 2], [0]] 2 (by decide) (by decide) (by decide)
    (fun fe hfe => by cases hfe; decide)).1
  rw [List.all_eq_true]
  intro es hes
  rw [List.all_eq_true]
  intro x hx
  exact decide_eq_true (h es hes x hx)

/-! ### C2 / C3: TPU handling and the filament-group capacity bound

`ToolOrdering::get_physical_unprintables` (lines 53-85) throws on a second
TPU filament; `ToolOrdering::check_tpu_group` (lines 566-591) validates a
filament→extruder map, and `reorder_extruders_for_minimum_flush_volume`
(lines 1119-1126) turns a failed check into a fatal `RuntimeError`;
`ToolOrdering::get_recommended_filament_maps` (lines 928-1043) computes the
automatic grouping, special-casing TPU.  Filament→extruder maps are 0-based
`ℤ` in the source (`std::vector<int>`); the automatic grouping produces
`ℕ` extruder indices. -/

/-- The configuration fields read by the TPU/grouping code.
`master_extruder_id` is stored 1-based.  `nozzle_hrc` holds
`Print::get_hrc_by_nozzle_type(nozzle_type.get_at(eid))` per extruder
(the table lives outside this compilation unit). -/
structure PrintConfig where
  filament_type : List String
  master_extruder_id : ℤ
  nozzle_diameter : List ℚ
  nozzle_hrc : List ℤ
  required_nozzle_HRC : List ℤ
  filament_colour : List String

/-- `get_filament_by_type`: the sorted set of used filaments of the given
type (`std::set<int>`). -/
def get_filament_by_type (used : List ℕ) (cfg : PrintConfig) (t : String) : List ℕ :=
  sort_remove_duplicates (used.filter (fun f => getAt cfg.filament_type "" f = t))

/-- `ToolOrdering::get_physical_unprintables`: throws (`Except.error`) on a
second TPU filament; with fewer than two extruders returns empty sets;
otherwise pins TPU away from the non-master extruder and adds filaments
whose required hardness exceeds the nozzle's. -/
def get_physical_unprintables (used : List ℕ) (cfg : PrintConfig) :
    Except String (List (List ℕ)) :=
  if 1 < (get_filament_by_type used cfg "TPU").length then
    Except.error "Only supports up to one TPU filament."
  else if cfg.nozzle_diameter.length < 2 then
    Except.ok (List.replicate cfg.nozzle_diameter.length [])
  else
    Except.ok ((List.range cfg.nozzle_diameter.length).map (fun eid =>
      sort_remove_duplicates
        ((if eid = (1 - (cfg.master_extruder_id - 1)).toNat then
            get_filament_by_type used cfg "TPU"
          else []) ++
         used.filter (fun f => getAt cfg.nozzle_hrc 0 eid < getAt cfg.required_nozzle_HRC 0 f))))

/-- `ToolOrdering::check_tpu_group`: `false` when two TPU filaments are used,
or when the (single) TPU filament is mapped to a non-master extruder or
shares its extruder with another used filament. -/
def check_tpu_group (used : List ℕ) (maps : List ℤ) (cfg : PrintConfig) : Bool :=
  let tpuUsed := used.filter (fun f => getAt cfg.filament_type "" f = "TPU")
  if 2 ≤ tpuUsed.length then false
  else
    match tpuUsed with
    | [] => true
    | t :: _ =>
      let e := maps.getD t 0
      let master := cfg.master_extruder_id - 1
      decide (e = master) && decide ((used.filter (fun f => maps.getD f 0 = e)).length ≤ 1)

/-- Lines 1119-1126 of `reorder_extruders_for_minimum_flush_volume`: a failed
TPU-group check raises a fatal `RuntimeError` before any per-layer sequencing
happens. -/
def check_tpu_group_gate (used : List ℕ) (maps : List ℤ) (cfg : PrintConfig)
    (manual : Bool) : Except String Unit :=
  if check_tpu_group used maps cfg then Except.ok ()
  else Except.error (if manual then
    "Manual grouping error: TPU can only be placed in a nozzle alone."
  else
    "Auto grouping error: TPU can only be placed in a nozzle alone.")

/-- `FilamentGroupContext` (immutable optimisation input). -/
structure FilamentGroupContext where
  flush_matrix : List (List (List ℚ))
  physical_unprintables : List (List ℕ)
  geometric_unprintables : List (List ℕ)
  max_group_size : List ℕ
  total_filament_num : ℕ
  master_extruder_id : ℕ

/-- Lines 971-985 of `get_recommended_filament_maps`: per-extruder group
capacity from the attached AMS units (`size * count` summed), default
`[16, 16]`, and a zero total (external feed only) is given capacity 1. -/
def computeGroupSize (ams : List (List (ℕ × ℕ))) : List ℕ :=
  if ams.isEmpty then [16, 16]
  else (ams.map (fun a => a.foldl (fun s p => s + p.1 * p.2) 0)).map
    (fun s => if s = 0 then 1 else s)

/-- Modelled from the spec: `collect_sorted_used_filaments`
(`GCode/ToolOrderUtils.cpp`, not under `src/`): the sorted duplicate-free
list of filaments used on any layer. -/
def collect_sorted_used_filaments (layer_filaments : List (List ℕ)) : List ℕ :=
  sort_remove_duplicates layer_filaments.flatten

/-- Whether filament `f` is of type TPU. -/
def isTPU (cfg : PrintConfig) (f : ℕ) : Bool := getAt cfg.filament_type "" f = "TPU"

/-- The extruder index of one side of a bipartition choice. -/
def grpOf (b : Bool) : ℕ := if b then 1 else 0

/-- All boolean lists of the given length: the candidate bipartitions of the
used-filament list. -/
def allBoolLists : ℕ → List (List Bool)
  | 0 => [[]]
  | n + 1 => (allBoolLists n).map (List.cons false) ++ (allBoolLists n).map (List.cons true)

/-- The hard constraints of the Filament Group Optimizer (spec §4.2) on one
candidate bipartition: per-extruder capacity, the physical/geometric
unprintable sets, and the TPU rule (at most one TPU; a TPU filament pinned
alone to the master extruder). -/
def feasibleChoice (ctx : FilamentGroupContext) (cfg : PrintConfig) (used : List ℕ)
    (bl : List Bool) : Bool :=
  let pairs := used.zip bl
  decide (bl.length = used.length) &&
  decide ((pairs.filter (fun p => grpOf p.2 = 0)).length ≤ ctx.max_group_size.getD 0 0) &&
  decide ((pairs.filter (fun p => grpOf p.2 = 1)).length ≤ ctx.max_group_size.getD 1 0) &&
  pairs.all (fun p => !(decide (p.1 ∈ ctx.physical_unprintables.getD (grpOf p.2) [])) &&
    !(decide (p.1 ∈ ctx.geometric_unprintables.getD (grpOf p.2) []))) &&
  decide ((used.filter (isTPU cfg)).length ≤ 1) &&
  pairs.all (fun p => if isTPU cfg p.1 then decide (grpOf p.2 = ctx.master_extruder_id)
    else (!(used.any (isTPU cfg)) || decide (grpOf p.2 ≠ ctx.master_extruder_id)))

/-- The extruder a filament is assigned to by a bipartition choice (`0` for
filaments outside the used list, matching the `std::vector<int> ret(N, 0)`
initialisation). -/
def groupOfFilament (used : List ℕ) (bl : List Bool) (f : ℕ) : ℕ :=
  match (used.zip bl).find? (fun p => p.1 = f) with
  | some p => grpOf p.2
  | none => 0

/-- Flush volume of consecutive filament pairs (`get_flush_volume`). -/
def consecCost (mtx : List (List ℚ)) : List ℕ → ℚ
  | [] => 0
  | [_] => 0
  | a :: b :: r => (mtx.getD a []).getD b 0 + consecCost mtx (b :: r)

/-- Layer-summed flush cost of a candidate bipartition, evaluated on the
representative per-layer filament order (spec §4.2's objective). -/
def totalFlushCost (ctx : FilamentGroupContext) (used : List ℕ) (bl : List Bool)
    (layer_filaments : List (List ℕ)) : ℚ :=
  (layer_filaments.map (fun layer =>
    consecCost (ctx.flush_matrix.getD 0 []) (layer.filter (fun f => groupOfFilament used bl f = 0)) +
    consecCost (ctx.flush_matrix.getD 1 []) (layer.filter (fun f => groupOfFilament used bl f = 1)))).sum

/-- The full filament→extruder vector of a bipartition choice. -/
def assignFromChoice (N : ℕ) (used : List ℕ) (bl : List Bool) : List ℕ :=
  (List.range N).map (groupOfFilament used bl)

/-- Modelled from the spec: `FilamentGroup::calc_filament_group`,
`optimize_group_for_master_extruder` and `select_best_group_for_ams`
(`FilamentGroup.cpp` / `ToolOrderUtils.cpp`, not under `src/`).  Per spec
§4.2 the optimizer enumerates candidate bipartitions honouring the hard
constraints, evaluates each candidate's layer-summed flush cost and returns
a best candidate; the master-extruder and AMS-colour tie-breaks only ever
select among the retained constraint-satisfying candidates. -/
def calc_filament_group_spec (ctx : FilamentGroupContext) (cfg : PrintConfig)
    (layer_filaments : List (List ℕ)) : List ℕ :=
  match ((allBoolLists (collect_sorted_used_filaments layer_filaments).length).filter
      (feasibleChoice ctx cfg (collect_sorted_used_filaments layer_filaments))).argmin
      (fun bl => totalFlushCost ctx (collect_sorted_used_filaments layer_filaments) bl
        layer_filaments) with
  | some bl =>
    assignFromChoice ctx.total_filament_num (collect_sorted_used_filaments layer_filaments) bl
  | none => List.replicate ctx.total_filament_num 0

/-- `ToolOrdering::get_recommended_filament_maps`.  The flush matrices
(reshaped from the flattened config option in lines 936-945) are passed
already shaped; on a two-extruder printer, a job using TPU maps exactly the
used TPU filaments to the master extruder and everything else to the other
extruder (lines 1000-1007), otherwise the group optimizer runs; with any
other extruder count the map is all zeros. -/
def get_recommended_filament_maps (layer_filaments : List (List ℕ)) (cfg : PrintConfig)
    (flush : List (List (List ℚ))) (ams : List (List (ℕ × ℕ)))
    (phys geom : List (List ℕ)) : List ℕ :=
  if layer_filaments.isEmpty then []
  else if cfg.nozzle_diameter.length = 2 then
    if (get_filament_by_type (collect_sorted_used_filaments layer_filaments) cfg
        "TPU").isEmpty then
      calc_filament_group_spec
        (FilamentGroupContext.mk flush phys geom (computeGroupSize ams)
          cfg.filament_colour.length (cfg.master_extruder_id - 1).toNat)
        cfg layer_filaments
    else
      (List.range cfg.filament_colour.length).map (fun f =>
        if f ∈ get_filament_by_type (collect_sorted_used_filaments layer_filaments) cfg
            "TPU" then
          (cfg.master_extruder_id - 1).toNat
        else 1 - (cfg.master_extruder_id - 1).toNat)
  else
    List.replicate cfg.filament_colour.length 0

/-- Number of used filaments assigned to extruder `e` by the map `ret`. -/
def countAssigned (ret : List ℕ) (used : List ℕ) (e : ℕ) : ℕ :=
  (used.filter (fun f => ret.getD f 0 = e)).length

theorem sort_remove_duplicates_of_sorted {α : Type} [LinearOrder α] (l : List α)
    (h : List.Pairwise (· < ·) l) : sort_remove_duplicates l = l := by
  induction l with
  | nil => rfl
  | cons x r ih =>
    rcases List.pairwise_cons.mp h with ⟨hx, hr⟩
    have hsr : sort_remove_duplicates (x :: r) = insertSorted x (sort_remove_duplicates r) := rfl
    rw [hsr, ih hr]
    cases r with
    | nil => rfl
    | cons y t =>
      have hxy : x < y := hx y (by simp)
      simp [insertSorted, hxy]

theorem mem_allBoolLists (bl : List Bool) : bl ∈ allBoolLists bl.length := by
  induction bl with
  | nil => simp [allBoolLists]
  | cons b r ih =>
    show b :: r ∈ allBoolLists (r.length + 1)
    rw [show allBoolLists (r.length + 1) =
      (allBoolLists r.length).map (List.cons false) ++
        (allBoolLists r.length).map (List.cons true) from rfl]
    rw [List.mem_append]
    cases b
    · exact Or.inl (List.mem_map.mpr ⟨r, ih, rfl⟩)
    · exact Or.inr (List.mem_map.mpr ⟨r, ih, rfl⟩)

theorem getD_range_map {β : Type} (g : ℕ → β) (N f : ℕ) (d : β) (h : f < N) :
    ((List.range N).map g).getD f d = g f := by
  rw [List.getD_eq_getElem?_getD, List.getElem?_map, List.getElem?_range h]
  rfl

theorem exists_pair_of_mem_left (l1 : List ℕ) : ∀ (l2 : List Bool),
    l1.length = l2.length → ∀ f ∈ l1, ∃ b, (f, b) ∈ l1.zip l2 := by
  induction l1 with
  | nil => intro l2 _ f hf; simp at hf
  | cons x r ih =>
    intro l2 hlen f hf
    cases l2 with
    | nil => simp at hlen
    | cons b bs =>
      rcases List.mem_cons.mp hf with rfl | hf2
      · exact ⟨b, by simp⟩
      · rcases ih bs (by simpa using hlen) f hf2 with ⟨b2, hb2⟩
        exact ⟨b2, List.mem_cons_of_mem _ hb2⟩

theorem zip_filter_fst_length (q : ℕ → Bool) (l1 : List ℕ) : ∀ (l2 : List Bool),
    l1.length = l2.length →
    ((l1.zip l2).filter (fun p => q p.1)).length = (l1.filter q).length := by
  induction l1 with
  | nil => intro l2 _; simp
  | cons x r ih =>
    intro l2 hlen
    cases l2 with
    | nil => simp at hlen
    | cons b bs =>
      have h2 : r.length = bs.length := by simpa using hlen
      have hrec := ih bs h2
      by_cases hq : q x
      · simp [List.filter_cons, hq, hrec]
      · simp [List.filter_cons, hq, hrec]

theorem one_lt_length_of_two_mem {α : Type} (l : List α) (hnd : l.Nodup) (a b : α)
    (ha : a ∈ l) (hb : b ∈ l) (hab : a ≠ b) : 2 ≤ l.length := by
  cases l with
  | nil => simp at ha
  | cons x r =>
    cases r with
    | nil =>
      have h1 : a = x := by simpa using ha
      have h2 : b = x := by simpa using hb
      exact absurd (h1.trans h2.symm) hab
    | cons y t => simp

theorem grpOf_lt_two (b : Bool) : grpOf b < 2 := by
  cases b <;> simp [grpOf]

theorem groupOfFilament_cons_self (f : ℕ) (b : Bool) (us : List ℕ) (bs : List Bool) :
    groupOfFilament (f :: us) (b :: bs) f = grpOf b := by
  unfold groupOfFilament
  rw [List.zip_cons_cons, List.find?_cons_of_pos _ (by simp)]

theorem groupOfFilament_cons_ne (f g : ℕ) (b : Bool) (us : List ℕ) (bs : List Bool)
    (h : f ≠ g) : groupOfFilament (f :: us) (b :: bs) g = groupOfFilament us bs g := by
  unfold groupOfFilament
  rw [List.zip_cons_cons, List.find?_cons_of_neg _ (by simpa using h)]

theorem filter_group_zip (e : ℕ) (used : List ℕ) : ∀ (bl : List Bool),
    used.Nodup → bl.length = used.length →
    (used.filter (fun f => groupOfFilament used bl f = e)).length =
      ((used.zip bl).filter (fun p => grpOf p.2 = e)).length := by
  induction used with
  | nil => intro bl _ _; simp
  | cons f us ih =>
    intro bl hnd hlen
    cases bl with
    | nil => simp at hlen
    | cons b bs =>
      have hlen2 : bs.length = us.length := by simpa using hlen
      rcases List.nodup_cons.mp hnd with ⟨hf, hnd2⟩
      have hcongr : us.filter (fun g => groupOfFilament (f :: us) (b :: bs) g = e) =
          us.filter (fun g => groupOfFilament us bs g = e) := by
        apply List.filter_congr
        intro g hg
        rw [groupOfFilament_cons_ne f g b us bs (fun he => hf (he ▸ hg))]
      have hrec := ih bs hnd2 hlen2
      by_cases hb : grpOf b = e
      · simp [List.filter_cons, groupOfFilament_cons_self, hb, hcongr, hrec]
      · simp [List.filter_cons, groupOfFilament_cons_self, hb, hcongr, hrec]

theorem feasibleChoice_spec (ctx : FilamentGroupContext) (cfg : PrintConfig)
    (used : List ℕ) (bl : List Bool) (h : feasibleChoice ctx cfg used bl = true) :
    bl.length = used.length ∧
    ((used.zip bl).filter (fun p => grpOf p.2 = 0)).length ≤ ctx.max_group_size.getD 0 0 ∧
    ((used.zip bl).filter (fun p => grpOf p.2 = 1)).length ≤ ctx.max_group_size.getD 1 0 ∧
    (used.filter (isTPU cfg)).length ≤ 1 ∧
    ∀ p ∈ used.zip bl,
      (isTPU cfg p.1 = true → grpOf p.2 = ctx.master_extruder_id) ∧
      (isTPU cfg p.1 = false → used.any (isTPU cfg) = true →
        grpOf p.2 ≠ ctx.master_extruder_id) := by
  unfold feasibleChoice at h
  simp only [Bool.and_eq_true, decide_eq_true_eq, List.all_eq_true] at h
  obtain ⟨⟨⟨⟨⟨h1, h2⟩, h3⟩, _⟩, h5⟩, h6⟩ := h
  refine ⟨h1, h2, h3, h5, ?_⟩
  intro p hp
  have h7 := h6 p hp
  constructor
  · intro ht
    rw [ht] at h7
    simpa using h7
  · intro ht hany
    rw [ht] at h7
    simp only [Bool.false_eq_true, if_false, Bool.or_eq_true, Bool.not_eq_true',
      decide_eq_true_eq] at h7
    rcases h7 with h7 | h7
    · rw [hany] at h7
      simp at h7
    · exact h7

/-- Claim C2: two used TPU filaments make `get_physical_unprintables` throw;
a filament map placing the (single) used TPU filament on a non-master
extruder or together with any other used filament raises the fatal
TPU-grouping `RuntimeError` of `reorder_extruders_for_minimum_flush_volume`;
and with exactly one used TPU filament the automatic grouping puts that
filament on the master extruder and every other filament on the other
extruder. -/
theorem tpu_errors_and_exclusivity (cfg : PrintConfig) (used : List ℕ) (maps : List ℤ)
    (manual : Bool) (layer_filaments : List (List ℕ)) (flush : List (List (List ℚ)))
    (ams : List (List (ℕ × ℕ))) (phys geom : List (List ℕ)) (t : ℕ) :
    (2 ≤ (get_filament_by_type used cfg "TPU").length →
       get_physical_unprintables used cfg =
         Except.error "Only supports up to one TPU filament.") ∧
    (used.Nodup → t ∈ used → isTPU cfg t = true →
     (maps.getD t 0 ≠ cfg.master_extruder_id - 1 ∨
        ∃ g ∈ used, g ≠ t ∧ maps.getD g 0 = maps.getD t 0) →
       check_tpu_group used maps cfg = false ∧
       check_tpu_group_gate used maps cfg manual =
         Except.error (if manual then
           "Manual grouping error: TPU can only be placed in a nozzle alone."
         else
           "Auto grouping error: TPU can only be placed in a nozzle alone.")) ∧
    (layer_filaments ≠ [] → cfg.nozzle_diameter.length = 2 →
     (cfg.master_extruder_id = 1 ∨ cfg.master_extruder_id = 2) →
     get_filament_by_type (collect_sorted_used_filaments layer_filaments) cfg "TPU" = [t] →
     t < cfg.filament_colour.length →
       (get_recommended_filament_maps layer_filaments cfg flush ams phys geom).getD t 0 =
         (cfg.master_extruder_id - 1).toNat ∧
       ∀ f, f < cfg.filament_colour.length → f ≠ t →
         (get_recommended_filament_maps layer_filaments cfg flush ams phys geom).getD f 0 ≠
           (cfg.master_extruder_id - 1).toNat) := by
  refine ⟨?_, ?_, ?_⟩
  · intro h2
    unfold get_physical_unprintables
    rw [if_pos (show 1 < (get_filament_by_type used cfg "TPU").length by omega)]
  · intro hnd htu htp hbad
    have hcheck : check_tpu_group used maps cfg = false := by
      unfold check_tpu_group
      by_cases h2 : 2 ≤ (used.filter (fun f => getAt cfg.filament_type "" f = "TPU")).length
      · rw [if_pos h2]
      · rw [if_neg h2]
        have htmem : t ∈ used.filter (fun f => getAt cfg.filament_type "" f = "TPU") :=
          List.mem_filter.mpr ⟨htu, htp⟩
        have htl : used.filter (fun f => getAt cfg.filament_type "" f = "TPU") = [t] := by
          cases hc : used.filter (fun f => getAt cfg.filament_type "" f = "TPU") with
          | nil =>
            rw [hc] at htmem
            simp at htmem
          | cons a s =>
            cases s with
            | nil =>
              rw [hc] at htmem
              have : t = a := by simpa using htmem
              rw [this]
            | cons c u =>
              rw [hc] at h2
              simp at h2
        rw [htl]
        show (decide (maps.getD t 0 = cfg.master_extruder_id - 1) &&
          decide ((used.filter (fun f => maps.getD f 0 = maps.getD t 0)).length ≤ 1)) = false
        rcases hbad with hbad | ⟨g, hg, hgt, hge⟩
        · have hd : decide (maps.getD t 0 = cfg.master_extruder_id - 1) = false := by
            simpa using hbad
          rw [hd, Bool.false_and]
        · have htin : t ∈ used.filter (fun f => maps.getD f 0 = maps.getD t 0) :=
            List.mem_filter.mpr ⟨htu, by simp⟩
          have hgin : g ∈ used.filter (fun f => maps.getD f 0 = maps.getD t 0) :=
            List.mem_filter.mpr ⟨hg, by simpa using hge⟩
          have h2l : 2 ≤ (used.filter (fun f => maps.getD f 0 = maps.getD t 0)).length :=
            one_lt_length_of_two_mem _ (hnd.filter _) t g htin hgin (Ne.symm hgt)
          have hnle : decide ((used.filter
              (fun f => maps.getD f 0 = maps.getD t 0)).length ≤ 1) = false := by
            simp only [decide_eq_false_iff_not]
            omega
          rw [hnle, Bool.and_false]
    refine ⟨hcheck, ?_⟩
    unfold check_tpu_group_gate
    rw [hcheck]
    simp
  · intro hlf hext hm htpu htN
    have hne : ¬ layer_filaments.isEmpty = true := by
      simpa [List.isEmpty_iff] using hlf
    unfold get_recommended_filament_maps
    rw [if_neg hne, if_pos hext, if_neg (by simp [htpu])]
    constructor
    · rw [getD_range_map _ _ _ _ htN, if_pos (by simp [htpu])]
    · intro f hfN hft
      rw [getD_range_map _ _ _ _ hfN, if_neg (by simp [htpu, hft])]
      rcases hm with hm | hm <;> rw [hm] <;> decide

/-- Witness for C2 with three filaments of types TPU, TPU, PLA: two used TPU
filaments throw; a bad manual map is rejected; a job using only filament 0
(one TPU) maps it alone to master extruder 0. -/
theorem tpu_errors_and_exclusivity_witness :
    get_physical_unprintables [0, 1]
      (PrintConfig.mk ["TPU", "TPU", "PLA"] 1 [1, 1] [0, 0] [0, 0, 0] ["a", "b", "c"]) =
      Except.error "Only supports up to one TPU filament." ∧
    check_tpu_group [0, 1] [1, 0, 0]
      (PrintConfig.mk ["TPU", "TPU", "PLA"] 1 [1, 1] [0, 0] [0, 0, 0] ["a", "b", "c"]) = false ∧
    (get_recommended_filament_maps [[0]]
      (PrintConfig.mk ["TPU", "TPU", "PLA"] 1 [1, 1] [0, 0] [0, 0, 0] ["a", "b", "c"])
      [] [] [] []).getD 0 0 = 0 ∧
    (get_recommended_filament_maps [[0]]
      (PrintConfig.mk ["TPU", "TPU", "PLA"] 1 [1, 1] [0, 0] [0, 0, 0] ["a", "b", "c"])
      [] [] [] []).getD 1 0 ≠ 0 := by
  have cfg0 : PrintConfig :=
    PrintConfig.mk ["TPU", "TPU", "PLA"] 1 [1, 1] [0, 0] [0, 0, 0] ["a", "b", "c"]
  refine ⟨?_, ?_, ?_, ?_⟩
  · exact (tpu_errors_and_exclusivity _ [0, 1] [1, 0, 0] false [[0]] [] [] [] [] 0).1
      (by decide)
  · exact ((tpu_errors_and_exclusivity _ [0, 1] [1, 0, 0] false [[0]] [] [] [] [] 0).2.1
      (by decide) (by decide) (by decide) (Or.inl (by decide))).1
  · have h := ((tpu_errors_and_exclusivity
      (PrintConfig.mk ["TPU", "TPU", "PLA"] 1 [1, 1] [0, 0] [0, 0, 0] ["a", "b", "c"])
      [0, 1] [1, 0, 0] false [[0]] [] [] [] [] 0).2.2
      (by decide) (by decide) (Or.inl (by decide)) (by decide) (by decide)).1
    simpa using h
  · have h := ((tpu_errors_and_exclusivity
      (PrintConfig.mk ["TPU", "TPU", "PLA"] 1 [1, 1] [0, 0] [0, 0, 0] ["a", "b", "c"])
      [0, 1] [1, 0, 0] false [[0]] [] [] [] [] 0).2.2
      (by decide) (by decide) (Or.inl (by decide)) (by decide) (by decide)).2 1
      (by decide) (by decide)
    simpa using h

/-- Claim C3: on a two-extruder printer, over inputs for which some
bipartition satisfies the hard constraints (spec §4.2), the automatic
grouping of `get_recommended_filament_maps` assigns each extruder at most
its configured capacity (`computeGroupSize`, zero AMS slots giving capacity
1), on the optimizer path and on the special TPU path alike. -/
theorem get_recommended_filament_maps_capacity (layer_filaments : List (List ℕ))
    (cfg : PrintConfig) (flush : List (List (List ℚ))) (ams : List (List (ℕ × ℕ)))
    (phys geom : List (List ℕ))
    (hlf : layer_filaments ≠ [])
    (hext : cfg.nozzle_diameter.length = 2)
    (hmaster : cfg.master_extruder_id = 1 ∨ cfg.master_extruder_id = 2)
    (hN : ∀ f ∈ collect_sorted_used_filaments layer_filaments,
      f < cfg.filament_colour.length)
    (hfeas : ∃ bl, feasibleChoice
        (FilamentGroupContext.mk flush phys geom (computeGroupSize ams)
          cfg.filament_colour.length (cfg.master_extruder_id - 1).toNat)
        cfg (collect_sorted_used_filaments layer_filaments) bl = true) :
    ∀ e, e < 2 →
      countAssigned
        (get_recommended_filament_maps layer_filaments cfg flush ams phys geom)
        (collect_sorted_used_filaments layer_filaments) e ≤
        (computeGroupSize ams).getD e 0 := by
  intro e he
  obtain ⟨bl, hbl⟩ := hfeas
  have hsorted : List.Pairwise (· < ·) (collect_sorted_used_filaments layer_filaments) :=
    sorted_sort_remove_duplicates _
  have hnd : (collect_sorted_used_filaments layer_filaments).Nodup :=
    hsorted.imp (fun h => ne_of_lt h)
  obtain ⟨hlen, hcap0, hcap1, htpu1, hpin⟩ := feasibleChoice_spec _ _ _ _ hbl
  have hcap0b : (((collect_sorted_used_filaments layer_filaments).zip bl).filter
      (fun p => grpOf p.2 = 0)).length ≤ (computeGroupSize ams).getD 0 0 := hcap0
  have hcap1b : (((collect_sorted_used_filaments layer_filaments).zip bl).filter
      (fun p => grpOf p.2 = 1)).length ≤ (computeGroupSize ams).getD 1 0 := hcap1
  have hpinb : ∀ p ∈ (collect_sorted_used_filaments layer_filaments).zip bl,
      (isTPU cfg p.1 = true → grpOf p.2 = (cfg.master_extruder_id - 1).toNat) ∧
      (isTPU cfg p.1 = false →
        (collect_sorted_used_filaments layer_filaments).any (isTPU cfg) = true →
        grpOf p.2 ≠ (cfg.master_extruder_id - 1).toNat) := hpin
  have hm2 : (cfg.master_extruder_id - 1).toNat < 2 := by
    rcases hmaster with h | h <;> rw [h] <;> decide
  have htpuF : get_filament_by_type (collect_sorted_used_filaments layer_filaments) cfg
      "TPU" = (collect_sorted_used_filaments layer_filaments).filter (isTPU cfg) := by
    unfold get_filament_by_type
    exact sort_remove_duplicates_of_sorted _
      (List.Pairwise.sublist (List.filter_sublist _) hsorted)
  have hne : ¬ layer_filaments.isEmpty = true := by
    simpa [List.isEmpty_iff] using hlf
  unfold get_recommended_filament_maps
  rw [if_neg hne, if_pos hext]
  by_cases htpuE : (get_filament_by_type (collect_sorted_used_filaments layer_filaments)
      cfg "TPU").isEmpty
  · -- optimizer path (no TPU): the spec-modelled group optimizer returns a
    -- constraint-satisfying candidate, which respects the capacities.
    rw [if_pos htpuE]
    unfold calc_filament_group_spec
    have hmem : bl ∈ (allBoolLists
        (collect_sorted_used_filaments layer_filaments).length).filter
        (feasibleChoice
          (FilamentGroupContext.mk flush phys geom (computeGroupSize ams)
            cfg.filament_colour.length (cfg.master_extruder_id - 1).toNat)
          cfg (collect_sorted_used_filaments layer_filaments)) :=
      List.mem_filter.mpr ⟨hlen ▸ mem_allBoolLists bl, hbl⟩
    split
    case _ blstar harg =>
      have hstar := List.argmin_mem harg
      have hfstar := (List.mem_filter.mp hstar).2
      obtain ⟨hlen2, hcap0s, hcap1s, _, _⟩ := feasibleChoice_spec _ _ _ _ hfstar
      have hcnt : countAssigned
          (assignFromChoice cfg.filament_colour.length
            (collect_sorted_used_filaments layer_filaments) blstar)
          (collect_sorted_used_filaments layer_filaments) e =
          (((collect_sorted_used_filaments layer_filaments).zip blstar).filter
            (fun p => grpOf p.2 = e)).length := by
        unfold countAssigned assignFromChoice
        have hcongr : (collect_sorted_used_filaments layer_filaments).filter
            (fun f => ((List.range cfg.filament_colour.length).map
              (groupOfFilament (collect_sorted_used_filaments layer_filaments)
                blstar)).getD f 0 = e) =
            (collect_sorted_used_filaments layer_filaments).filter
              (fun f => groupOfFilament (collect_sorted_used_filaments layer_filaments)
                blstar f = e) :=
          List.filter_congr (fun f hf => by rw [getD_range_map _ _ _ _ (hN f hf)])
        rw [hcongr]
        exact filter_group_zip e _ blstar hnd hlen2
      rw [hcnt]
      rcases (show e = 0 ∨ e = 1 by omega) with rfl | rfl
      · exact hcap0s
      · exact hcap1s
    case _ harg =>
      exfalso
      have hnil := List.argmin_eq_none.mp harg
      rw [hnil] at hmem
      simp at hmem
  · -- TPU path: used TPU filaments go to the master extruder, all other
    -- filaments to the other one.
    rw [if_neg htpuE]
    have htpune : (collect_sorted_used_filaments layer_filaments).filter (isTPU cfg) ≠ [] := by
      intro hc
      rw [htpuF, hc] at htpuE
      simp at htpuE
    obtain ⟨t, ht⟩ : ∃ t, t ∈ (collect_sorted_used_filaments layer_filaments).filter
        (isTPU cfg) := by
      cases hc : (collect_sorted_used_filaments layer_filaments).filter (isTPU cfg) with
      | nil => exact absurd hc htpune
      | cons a s => exact ⟨a, by simp⟩
    have htused : t ∈ collect_sorted_used_filaments layer_filaments :=
      (List.mem_filter.mp ht).1
    have htTPU : isTPU cfg t = true := (List.mem_filter.mp ht).2
    have hany : (collect_sorted_used_filaments layer_filaments).any (isTPU cfg) = true :=
      List.any_eq_true.mpr ⟨t, htused, htTPU⟩
    obtain ⟨b, hb⟩ := exists_pair_of_mem_left _ bl hlen.symm t htused
    have hgrpb : grpOf b = (cfg.master_extruder_id - 1).toNat := (hpinb (t, b) hb).1 htTPU
    have hcapm : 1 ≤ (computeGroupSize ams).getD (cfg.master_extruder_id - 1).toNat 0 := by
      have hmm : (t, b) ∈ ((collect_sorted_used_filaments layer_filaments).zip bl).filter
          (fun p => grpOf p.2 = (cfg.master_extruder_id - 1).toNat) :=
        List.mem_filter.mpr ⟨hb, by simp [hgrpb]⟩
      have h1 := List.length_pos_of_mem hmm
      rcases (show (cfg.master_extruder_id - 1).toNat = 0 ∨
          (cfg.master_extruder_id - 1).toNat = 1 by omega) with hmv | hmv
      · rw [hmv] at h1 ⊢
        omega
      · rw [hmv] at h1 ⊢
        omega
    have hnontpu : ((collect_sorted_used_filaments layer_filaments).filter
        (fun f => !(isTPU cfg f))).length ≤
        (computeGroupSize ams).getD (1 - (cfg.master_extruder_id - 1).toNat) 0 := by
      have hz : ((collect_sorted_used_filaments layer_filaments).filter
          (fun f => !(isTPU cfg f))).length =
          (((collect_sorted_used_filaments layer_filaments).zip bl).filter
            (fun p => !(isTPU cfg p.1))).length :=
        (zip_filter_fst_length _ _ bl hlen.symm).symm
      have hmono : (((collect_sorted_used_filaments layer_filaments).zip bl).filter
          (fun p => !(isTPU cfg p.1))).length ≤
          (((collect_sorted_used_filaments layer_filaments).zip bl).filter
            (fun p => grpOf p.2 = 1 - (cfg.master_extruder_id - 1).toNat)).length := by
        rw [← List.countP_eq_length_filter, ← List.countP_eq_length_filter]
        apply List.countP_mono_left
        intro p hp hptpu
        have hfalse : isTPU cfg p.1 = false := by
          simpa using hptpu
        have hne2 := (hpinb p hp).2 hfalse hany
        have hlt := grpOf_lt_two p.2
        simp only [decide_eq_true_eq]
        omega
      rcases (show (cfg.master_extruder_id - 1).toNat = 0 ∨
          (cfg.master_extruder_id - 1).toNat = 1 by omega) with hmv | hmv
      · rw [hmv] at hmono ⊢
        simp only [Nat.sub_zero] at hmono ⊢
        omega
      · rw [hmv] at hmono ⊢
        simp only [Nat.sub_self] at hmono ⊢
        omega
    have hcnt : ∀ e2 : ℕ, countAssigned
        ((List.range cfg.filament_colour.length).map (fun f =>
          if f ∈ get_filament_by_type (collect_sorted_used_filaments layer_filaments) cfg
              "TPU" then (cfg.master_extruder_id - 1).toNat
          else 1 - (cfg.master_extruder_id - 1).toNat))
        (collect_sorted_used_filaments layer_filaments) e2 =
        ((collect_sorted_used_filaments layer_filaments).filter (fun f =>
          (if f ∈ get_filament_by_type (collect_sorted_used_filaments layer_filaments) cfg
              "TPU" then (cfg.master_extruder_id - 1).toNat
           else 1 - (cfg.master_extruder_id - 1).toNat) = e2)).length := by
      intro e2
      unfold countAssigned
      congr 1
      exact List.filter_congr (fun f hf => by rw [getD_range_map _ _ _ _ (hN f hf)])
    by_cases hem : e = (cfg.master_extruder_id - 1).toNat
    · subst hem
      rw [hcnt]
      have hfe : (collect_sorted_used_filaments layer_filaments).filter (fun f =>
          (if f ∈ get_filament_by_type (collect_sorted_used_filaments layer_filaments) cfg
              "TPU" then (cfg.master_extruder_id - 1).toNat
           else 1 - (cfg.master_extruder_id - 1).toNat) = (cfg.master_extruder_id - 1).toNat) =
          (collect_sorted_used_filaments layer_filaments).filter (isTPU cfg) := by
        apply List.filter_congr
        intro f hf
        by_cases hftpu : isTPU cfg f = true
        · have hfin : f ∈ get_filament_by_type
              (collect_sorted_used_filaments layer_filaments) cfg "TPU" := by
            rw [htpuF]
            exact List.mem_filter.mpr ⟨hf, hftpu⟩
          simp [hfin, hftpu]
        · have hfnin : f ∉ get_filament_by_type
              (collect_sorted_used_filaments layer_filaments) cfg "TPU" := by
            rw [htpuF]
            intro hc
            exact hftpu (List.mem_filter.mp hc).2
          have hfv : isTPU cfg f = false := by
            simpa using hftpu
          simp only [hfnin, if_false, hfv, decide_eq_false_iff_not]
          omega
      rw [hfe]
      exact le_trans htpu1 hcapm
    · have hev : e = 1 - (cfg.master_extruder_id - 1).toNat := by omega
      rw [hcnt]
      have hfe : (collect_sorted_used_filaments layer_filaments).filter (fun f =>
          (if f ∈ get_filament_by_type (collect_sorted_used_filaments layer_filaments) cfg
              "TPU" then (cfg.master_extruder_id - 1).toNat
           else 1 - (cfg.master_extruder_id - 1).toNat) = e) =
          (collect_sorted_used_filaments layer_filaments).filter
            (fun f => !(isTPU cfg f)) := by
        apply List.filter_congr
        intro f hf
        by_cases hftpu : isTPU cfg f = true
        · have hfin : f ∈ get_filament_by_type
              (collect_sorted_used_filaments layer_filaments) cfg "TPU" := by
            rw [htpuF]
            exact List.mem_filter.mpr ⟨hf, hftpu⟩
          simp only [hfin, if_true, hftpu, Bool.not_true, decide_eq_false_iff_not]
          omega
        · have hfnin : f ∉ get_filament_by_type
              (collect_sorted_used_filaments layer_filaments) cfg "TPU" := by
            rw [htpuF]
            intro hc
            exact hftpu (List.mem_filter.mp hc).2
          have hfv : isTPU cfg f = false := by
            simpa using hftpu
          simp [hfnin, hfv, hev]
      rw [hfe, hev]
      exact hnontpu

/-- Witness for C3: two filaments `{0 : PLA, 1 : PETG}` used on one layer,
capacities `[16, 16]` (no AMS description), master extruder 1. -/
theorem get_recommended_filament_maps_capacity_witness :
    countAssigned
      (get_recommended_filament_maps [[0, 1]]
        (PrintConfig.mk ["PLA", "PETG"] 1 [1, 1] [0, 0] [0, 0] ["a", "b"]) [] [] [] [])
      (collect_sorted_used_filaments [[0, 1]]) 0 ≤ (computeGroupSize []).getD 0 0 :=
  get_recommended_filament_maps_capacity [[0, 1]]
    (PrintConfig.mk ["PLA", "PETG"] 1 [1, 1] [0, 0] [0, 0] ["a", "b"]) [] [] [] []
    (by decide) (by decide) (Or.inl (by decide)) (by decide)
    ⟨[false, false], by decide⟩ 0 (by decide)

/-! ### C6: `ToolOrdering::assign_custom_gcodes` (lines 1288-1368)

A layer is `(print_z, extruders)` with 0-based extruder ids; a custom G-code
item carries its authored height, type and 1-based extruder.  The function
skips tool changes, picks the print-height-nearest layer (`upper_bound` and
a gap comparison, ties to the upper layer) and attaches the event unless the
color-change suppression logic discards it. -/

/-- `CustomGCode::Mode`. -/
inductive GMode where
  | SingleExtruder
  | MultiAsSingle
  | MultiExtruder
deriving DecidableEq

/-- The custom G-code item types relevant to `assign_custom_gcodes`. -/
inductive GType where
  | ColorChange
  | PausePrint
  | ToolChange
  | Template
  | Custom
deriving DecidableEq

/-- A `CustomGCode::Item`: authored height, type, 1-based extruder. -/
structure GItem where
  print_z : ℚ
  type : GType
  extruder : ℤ
deriving DecidableEq

/-- Lines 1299-1301: the print's own mode. -/
def computeMode (num_filaments : ℕ) (object_extruders_size : ℕ) : GMode :=
  if num_filaments = 1 then GMode.SingleExtruder
  else if object_extruders_size = 1 then GMode.MultiAsSingle
  else GMode.MultiExtruder

/-- Lines 1329-1338: `extruder_print_above_by_layer[idx][e]` — whether
extruder `e` prints on layer `idx` or any layer above it. -/
def printingAbove (layers : List (ℚ × List ℕ)) (idx : ℕ) (e : ℕ) : Bool :=
  (layers.drop idx).any (fun l => e ∈ l.2)

/-- Lines 1344-1366: the layer an event authored at height `z` is applied
to: `upper_bound` over the layer heights, then the begin/end cases, else the
smaller gap with ties to the upper layer. -/
def chooseLayerIdx (layers : List (ℚ × List ℕ)) (z : ℚ) : Option ℕ :=
  if layers.isEmpty then none
  else
    let u := layers.findIdx (fun l => z < l.1)
    if u = 0 then some 0
    else if u = layers.length then some (layers.length - 1)
    else if |z - (layers.getD (u - 1) (0, [])).1| < |z - (layers.getD u (0, [])).1| then
      some (u - 1)
    else some u

/-- Lines 1310-1327, `apply_custom_gcode_to_layer`: whether the event is
actually attached to the chosen layer. -/
def apply_custom_gcode (mode model_mode : GMode) (num_filaments : ℕ)
    (layers : List (ℚ × List ℕ)) (idx : ℕ) (item : GItem) : Bool :=
  let color_change := item.type = GType.ColorChange
  let tool_change := item.type = GType.ToolChange
  let ignore := (mode = GMode.MultiExtruder) ≠ (model_mode = GMode.MultiExtruder)
  let tc_as_cc := mode = GMode.SingleExtruder ∧ model_mode = GMode.MultiAsSingle
  decide ((¬ color_change ∧ ¬ tool_change) ∨
    (¬ ignore ∧
      (if color_change then
        mode = GMode.SingleExtruder ∨
          (item.extruder ≤ (num_filaments : ℤ) ∧
            printingAbove layers idx (item.extruder - 1).toNat = true)
      else tool_change ∧ tc_as_cc)))

/-- `ToolOrdering::assign_custom_gcodes`, per item: the layer index the item
is attached to (`none` when skipped or suppressed). -/
def assign_custom_gcode (num_filaments object_extruders_size : ℕ) (model_mode : GMode)
    (layers : List (ℚ × List ℕ)) (item : GItem) : Option ℕ :=
  if item.type = GType.ToolChange then none
  else
    match chooseLayerIdx layers item.print_z with
    | none => none
    | some idx =>
      if apply_custom_gcode (computeMode num_filaments object_extruders_size) model_mode
          num_filaments layers idx item then
        some idx
      else none

theorem getD_eq_getElem {α : Type} (l : List α) (j : ℕ) (d : α) (h : j < l.length) :
    l.getD j d = l[j] := by
  rw [List.getD_eq_getElem?_getD, List.getElem?_eq_getElem h]
  rfl

theorem abs_sub_of_le (z w : ℚ) (h : z ≤ w) : |z - w| = w - z := by
  rw [abs_sub_comm]
  exact abs_of_nonneg (by linarith)

theorem abs_sub_of_ge (z w : ℚ) (h : w ≤ z) : |z - w| = z - w :=
  abs_of_nonneg (by linarith)

theorem pairwise_fst_mono (layers : List (ℚ × List ℕ))
    (hs : List.Pairwise (fun a b => a.1 < b.1) layers) (i j : ℕ)
    (hi : i < layers.length) (hj : j < layers.length) (hij : i ≤ j) :
    (layers[i]).1 ≤ (layers[j]).1 := by
  rcases eq_or_lt_of_le hij with rfl | hlt
  · exact le_refl _
  · exact le_of_lt ((List.pairwise_iff_getElem.mp hs) i j hi hj hlt)

/-- Counterexample to claim C6 as stated: in single-extruder mode (one
filament, matching authored mode) a color change at height `5.05` between
empty layers `5.0` and `5.2` is attached to layer 0 even though its extruder
prints nowhere at or above the chosen layer — the code short-circuits the
printing-above test when `mode == CustomGCode::SingleExtruder`
(line 1322). -/
theorem assign_custom_gcode_single_mode_cex :
    assign_custom_gcode 1 1 GMode.SingleExtruder [((5 : ℚ), ([] : List ℕ)), (26 / 5, [])]
      (GItem.mk (101 / 20) GType.ColorChange 1) = some 0 ∧
    printingAbove [((5 : ℚ), ([] : List ℕ)), (26 / 5, [])] 0 ((1 : ℤ) - 1).toNat = false := by
  constructor
  · have h1 : ¬ ((101 : ℚ) / 20 < 5) := by norm_num
    have h2 : ((101 : ℚ) / 20 < 26 / 5) := by norm_num
    have e1 : |(101 : ℚ) / 20 - 5| = 1 / 20 := by
      rw [show (101 : ℚ) / 20 - 5 = 1 / 20 by norm_num]
      exact abs_of_pos (by norm_num)
    have e2 : |(101 : ℚ) / 20 - 26 / 5| = 3 / 20 := by
      rw [show (101 : ℚ) / 20 - 26 / 5 = -(3 / 20) by norm_num, abs_neg]
      exact abs_of_pos (by norm_num)
    have h3 : |(101 : ℚ) / 20 - 5| < |(101 : ℚ) / 20 - 26 / 5| := by
      rw [e1, e2]
      norm_num
    simp [assign_custom_gcode, chooseLayerIdx, apply_custom_gcode, computeMode,
      List.findIdx_cons, h1, h2, h3]
  · simp [printingAbove]

/-- Claim C6 (amended): `assign_custom_gcodes` attaches each non-tool-change
event to the layer whose `print_z` is nearest the authored height, an exact
tie going to the layer above; with more than one filament a color-change
event whose extruder does not print on the chosen layer or any layer above
it is suppressed; in single-extruder mode (one filament) a color change is
always attached when the print and authored modes agree. -/
theorem assign_custom_gcodes_correct (layers : List (ℚ × List ℕ)) (item : GItem)
    (nf oes : ℕ) (mm : GMode)
    (hsorted : List.Pairwise (fun a b => a.1 < b.1) layers) :
    (∀ k, chooseLayerIdx layers item.print_z = some k →
       k < layers.length ∧
       ∀ j, j < layers.length →
         |item.print_z - (layers.getD k (0, [])).1| ≤
           |item.print_z - (layers.getD j (0, [])).1| ∧
         (|item.print_z - (layers.getD j (0, [])).1| =
             |item.print_z - (layers.getD k (0, [])).1| →
           (layers.getD j (0, [])).1 ≤ (layers.getD k (0, [])).1)) ∧
    (∀ k, 2 ≤ nf → item.type = GType.ColorChange →
       chooseLayerIdx layers item.print_z = some k →
       printingAbove layers k (item.extruder - 1).toNat = false →
       assign_custom_gcode nf oes mm layers item = none) ∧
    (nf = 1 → mm ≠ GMode.MultiExtruder → item.type = GType.ColorChange → layers ≠ [] →
       ∃ k, assign_custom_gcode nf oes mm layers item = some k) := by
  refine ⟨?_, ?_, ?_⟩
  · intro k hk
    unfold chooseLayerIdx at hk
    by_cases hemp : layers.isEmpty
    · rw [if_pos hemp] at hk
      cases hk
    · rw [if_neg hemp] at hk
      have hlen0 : 0 < layers.length := by
        cases layers with
        | nil => simp at hemp
        | cons a r => simp
      have hulen : layers.findIdx (fun l => item.print_z < l.1) ≤ layers.length :=
        List.findIdx_le_length _
      have hlow : ∀ (j : ℕ) (hj : j < layers.length),
          j < layers.findIdx (fun l => item.print_z < l.1) →
          (layers[j]).1 ≤ item.print_z := by
        intro j hj hju
        have hfalse := List.not_of_lt_findIdx hju
        simp only [decide_eq_false_iff_not, not_lt] at hfalse
        exact hfalse
      have hupper : ∀ h : layers.findIdx (fun l => item.print_z < l.1) < layers.length,
          item.print_z < (layers[layers.findIdx (fun l => item.print_z < l.1)]).1 := by
        intro h
        have := List.findIdx_getElem (w := h)
        simpa using this
      by_cases hu0 : layers.findIdx (fun l => item.print_z < l.1) = 0
      · rw [if_pos hu0] at hk
        have hk0 : k = 0 := by
          cases hk
          rfl
        subst hk0
        refine ⟨hlen0, ?_⟩
        intro j hj
        have hz0 : item.print_z < (layers[0]).1 := by
          have := hupper (by omega)
          simpa [hu0] using this
        have hmon : (layers[0]).1 ≤ (layers[j]).1 :=
          pairwise_fst_mono layers hsorted 0 j hlen0 hj (by omega)
        rw [getD_eq_getElem _ _ _ hlen0, getD_eq_getElem _ _ _ hj]
        rw [abs_sub_of_le _ _ (le_of_lt hz0),
          abs_sub_of_le _ _ (le_trans (le_of_lt hz0) hmon)]
        constructor
        · linarith
        · intro heq
          linarith
      · by_cases hul : layers.findIdx (fun l => item.print_z < l.1) = layers.length
        · rw [if_neg hu0, if_pos hul] at hk
          have hkv : k = layers.length - 1 := by
            cases hk
            rfl
          subst hkv
          have hkl : layers.length - 1 < layers.length := by omega
          refine ⟨hkl, ?_⟩
          intro j hj
          have hzj : (layers[j]).1 ≤ item.print_z := hlow j hj (by omega)
          have hzk : (layers[layers.length - 1]).1 ≤ item.print_z :=
            hlow _ hkl (by omega)
          have hmon : (layers[j]).1 ≤ (layers[layers.length - 1]).1 :=
            pairwise_fst_mono layers hsorted j _ hj hkl (by omega)
          rw [getD_eq_getElem _ _ _ hkl, getD_eq_getElem _ _ _ hj]
          rw [abs_sub_of_ge _ _ hzj, abs_sub_of_ge _ _ hzk]
          constructor
          · linarith
          · intro heq
            linarith
        · rw [if_neg hu0, if_neg hul] at hk
          have huL : layers.findIdx (fun l => item.print_z < l.1) < layers.length := by
            omega
          have hu1 : layers.findIdx (fun l => item.print_z < l.1) - 1 < layers.length := by
            omega
          have hzl : (layers[layers.findIdx (fun l => item.print_z < l.1) - 1]).1 ≤
              item.print_z := hlow _ hu1 (by omega)
          have hzu : item.print_z <
              (layers[layers.findIdx (fun l => item.print_z < l.1)]).1 := hupper huL
          rw [getD_eq_getElem _ _ _ hu1, getD_eq_getElem _ _ _ huL] at hk
          by_cases hgap : |item.print_z -
              (layers[layers.findIdx (fun l => item.print_z < l.1) - 1]).1| <
              |item.print_z - (layers[layers.findIdx (fun l => item.print_z < l.1)]).1|
          · rw [if_pos hgap] at hk
            have hkv : k = layers.findIdx (fun l => item.print_z < l.1) - 1 := by
              cases hk
              rfl
            subst hkv
            refine ⟨hu1, ?_⟩
            intro j hj
            rw [getD_eq_getElem _ _ _ hu1, getD_eq_getElem _ _ _ hj]
            by_cases hju : j < layers.findIdx (fun l => item.print_z < l.1)
            · have hzj : (layers[j]).1 ≤ item.print_z := hlow j hj hju
              have hmon : (layers[j]).1 ≤
                  (layers[layers.findIdx (fun l => item.print_z < l.1) - 1]).1 :=
                pairwise_fst_mono layers hsorted j _ hj hu1 (by omega)
              rw [abs_sub_of_ge _ _ hzj, abs_sub_of_ge _ _ hzl]
              constructor
              · linarith
              · intro heq
                linarith
            · have hmon : (layers[layers.findIdx (fun l => item.print_z < l.1)]).1 ≤
                  (layers[j]).1 :=
                pairwise_fst_mono layers hsorted _ j huL hj (by omega)
              have hzj : item.print_z ≤ (layers[j]).1 :=
                le_trans (le_of_lt hzu) hmon
              rw [abs_sub_of_le _ _ hzj]
              rw [abs_sub_of_ge _ _ hzl] at hgap ⊢
              rw [abs_sub_of_le _ _ (le_of_lt hzu)] at hgap
              constructor
              · linarith
              · intro heq
                linarith
          · rw [if_neg hgap] at hk
            have hkv : k = layers.findIdx (fun l => item.print_z < l.1) := by
              cases hk
              rfl
            subst hkv
            refine ⟨huL, ?_⟩
            intro j hj
            rw [getD_eq_getElem _ _ _ huL, getD_eq_getElem _ _ _ hj]
            push_neg at hgap
            by_cases hju : j < layers.findIdx (fun l => item.print_z < l.1)
            · have hzj : (layers[j]).1 ≤ item.print_z := hlow j hj hju
              have hmon : (layers[j]).1 ≤
                  (layers[layers.findIdx (fun l => item.print_z < l.1) - 1]).1 :=
                pairwise_fst_mono layers hsorted j _ hj hu1 (by omega)
              rw [abs_sub_of_ge _ _ hzj]
              rw [abs_sub_of_ge _ _ hzl, abs_sub_of_le _ _ (le_of_lt hzu)] at hgap
              rw [abs_sub_of_le _ _ (le_of_lt hzu)]
              constructor
              · linarith
              · intro heq
                have : (layers[j]).1 ≤
                    (layers[layers.findIdx (fun l => item.print_z < l.1)]).1 := by
                  linarith
                exact this
            · have hmon : (layers[layers.findIdx (fun l => item.print_z < l.1)]).1 ≤
                  (layers[j]).1 :=
                pairwise_fst_mono layers hsorted _ j huL hj (by omega)
              have hzj : item.print_z ≤ (layers[j]).1 :=
                le_trans (le_of_lt hzu) hmon
              rw [abs_sub_of_le _ _ hzj, abs_sub_of_le _ _ (le_of_lt hzu)]
              constructor
              · linarith
              · intro heq
                linarith
  · intro k h2f hcc hk hpa
    have happ : apply_custom_gcode (computeMode nf oes) mm nf layers k item = false := by
      unfold apply_custom_gcode
      simp only [hcc, decide_eq_false_iff_not]
      intro hcontra
      rcases hcontra with ⟨hnc, _⟩ | ⟨_, hcc2⟩
      · exact hnc trivial
      · rw [if_pos trivial] at hcc2
        rcases hcc2 with hmode | ⟨_, hpr⟩
        · unfold computeMode at hmode
          rw [if_neg (by omega)] at hmode
          by_cases hoes : oes = 1
          · rw [if_pos hoes] at hmode
            cases hmode
          · rw [if_neg hoes] at hmode
            cases hmode
        · rw [hpa] at hpr
          cases hpr
    unfold assign_custom_gcode
    rw [if_neg (by rw [hcc]; intro h; cases h), hk]
    show (if apply_custom_gcode (computeMode nf oes) mm nf layers k item = true then some k
      else none) = none
    rw [happ]
    simp
  · intro h1 hmm2 hcc hlne
    have hchoose : ∃ k, chooseLayerIdx layers item.print_z = some k := by
      unfold chooseLayerIdx
      rw [if_neg (by simpa [List.isEmpty_iff] using hlne)]
      by_cases hc1 : layers.findIdx (fun l => item.print_z < l.1) = 0
      · exact ⟨0, by rw [if_pos hc1]⟩
      · by_cases hc2 : layers.findIdx (fun l => item.print_z < l.1) = layers.length
        · exact ⟨layers.length - 1, by rw [if_neg hc1, if_pos hc2]⟩
        · by_cases hc3 : |item.print_z - (layers.getD
              (layers.findIdx (fun l => item.print_z < l.1) - 1) (0, [])).1| <
              |item.print_z - (layers.getD
                (layers.findIdx (fun l => item.print_z < l.1)) (0, [])).1|
          · exact ⟨layers.findIdx (fun l => item.print_z < l.1) - 1,
              by rw [if_neg hc1, if_neg hc2, if_pos hc3]⟩
          · exact ⟨layers.findIdx (fun l => item.print_z < l.1),
              by rw [if_neg hc1, if_neg hc2, if_neg hc3]⟩
    obtain ⟨k, hk⟩ := hchoose
    refine ⟨k, ?_⟩
    have happ : apply_custom_gcode (computeMode nf oes) mm nf layers k item = true := by
      unfold apply_custom_gcode
      simp only [hcc, decide_eq_true_eq]
      right
      constructor
      · unfold computeMode
        rw [if_pos h1]
        intro hig
        apply hig
        have h4 : (GMode.SingleExtruder = GMode.MultiExtruder) = False := by
          simp
        have h5 : (mm = GMode.MultiExtruder) = False := by
          simp [hmm2]
        rw [h4, h5]
      · rw [if_pos trivial]
        left
        unfold computeMode
        rw [if_pos h1]
    unfold assign_custom_gcode
    rw [if_neg (by rw [hcc]; intro h; cases h), hk]
    show (if apply_custom_gcode (computeMode nf oes) mm nf layers k item = true then some k
      else none) = some k
    rw [happ]
    simp

/-- Witness for C6: single-extruder print (one filament), authored mode
`SingleExtruder`; a color change is attached to some layer. -/
theorem assign_custom_gcodes_correct_witness :
    ∃ k, assign_custom_gcode 1 3 GMode.SingleExtruder [((1 : ℚ), [0]), (2, [])]
      (GItem.mk (3 / 2) GType.ColorChange 1) = some k :=
  (assign_custom_gcodes_correct [((1 : ℚ), [0]), (2, [])]
    (GItem.mk (3 / 2) GType.ColorChange 1) 1 3 GMode.SingleExtruder
    (by norm_num [List.pairwise_cons])).2.2 rfl (by intro h; cases h) rfl (by simp)

/-! ### C9: ToolOrdering::mark_skirt_layers (lines 1241-1280)

The per-layer state relevant to skirt marking: `print_z`, whether the
layer's extruder list is empty, and whether the layer prints an object.
The C++ mutates `has_skirt` flags in place; here the flags are a
`List Bool` threaded through the loops.  The outer `for (;;)` loop and
the inner `for (size_t k = i+1; k < j; ++k)` loop (whose index `k` is
also decremented by the `while (extruders.empty()) --k` skip) are
translated with explicit fuel; every theorem below is proved for the
chosen fuel values, which dominate the loops' iteration counts. -/

structure SkirtLayer where
  print_z : ℚ
  extr_empty : Bool
  has_object : Bool

def defaultSkirtLayer : SkirtLayer := ⟨0, true, false⟩

def skirtZ (layers : List SkirtLayer) (k : ℕ) : ℚ :=
  (layers.getD k defaultSkirtLayer).print_z

def skirtObj (layers : List SkirtLayer) (k : ℕ) : Bool :=
  (layers.getD k defaultSkirtLayer).has_object

def skirtEmpty (layers : List SkirtLayer) (k : ℕ) : Bool :=
  (layers.getD k defaultSkirtLayer).extr_empty

/-- Line 1256: `for (; j < size && !has_object[j]; ++j)`. -/
def findNextObject (layers : List SkirtLayer) : ℕ → ℕ → ℕ
  | 0, _ => layers.length
  | fuel + 1, j =>
    if j < layers.length then
      if skirtObj layers j then j else findNextObject layers fuel (j + 1)
    else layers.length

/-- Lines 1267-1268: `while (m_layer_tools[k].extruders.empty()) --k`
(the model stops at 0 rather than underflowing `size_t`). -/
def skipDown (layers : List SkirtLayer) : ℕ → ℕ
  | 0 => 0
  | k + 1 => if skirtEmpty layers (k + 1) then skipDown layers k else k + 1

/-- Lines 1263-1277: the intermediate-marking loop between object layers
`i` and `j`.  On a trigger (`z[k+1] - last_z > mlh + EPSILON`) the index
skips down over empty layers; an already-marked landing spot breaks the
loop, else it is marked, `last_z` is updated and iteration resumes from
the layer above the mark (the C++ `++k` on the mutated `k`). -/
def innerLoop (layers : List SkirtLayer) (mlh : ℚ) (j : ℕ) :
    ℕ → ℕ → ℚ → List Bool → List Bool
  | 0, _, _, marks => marks
  | fuel + 1, k, last_z, marks =>
    if k < j then
      if skirtZ layers (k + 1) - last_z > mlh + EPS then
        if marks.getD (skipDown layers k) false then marks
        else
          innerLoop layers mlh j fuel (skipDown layers k + 1)
            (skirtZ layers (skipDown layers k))
            (marks.set (skipDown layers k) true)
      else innerLoop layers mlh j fuel (k + 1) last_z marks
    else marks

/-- Lines 1253-1279: the outer `for (;;)` loop.  Marks layer `i`, finds
the next object layer `j`; if none is left it stops (no skirt above the
last object layer), else it runs the intermediate pass and continues from
`i = j`.  Since `i` strictly increases, `layers.length + 1` outer steps
suffice; the inner fuel `(length + 2)^2` dominates the inner iterations
(at most `length + 1` increments between any two of the at most
`length + 1` trigger events). -/
def markLoop (layers : List SkirtLayer) (mlh : ℚ) :
    ℕ → List Bool → ℕ → List Bool
  | 0, marks, _ => marks
  | fuel + 1, marks, i =>
    if findNextObject layers (layers.length + 1) (i + 1) = layers.length then
      marks.set i true
    else
      markLoop layers mlh fuel
        (innerLoop layers mlh (findNextObject layers (layers.length + 1) (i + 1))
          ((layers.length + 2) * (layers.length + 2)) (i + 1) (skirtZ layers i)
          (marks.set i true))
        (findNextObject layers (layers.length + 1) (i + 1))

/-- Lines 1241-1280: guard for no layers, guard for an empty first layer
(skirt skipped for the whole job, no error), else the marking loops. -/
def mark_skirt_layers (layers : List SkirtLayer) (mlh : ℚ) : List Bool :=
  if layers.isEmpty then []
  else if (layers.headD defaultSkirtLayer).extr_empty then
    List.replicate layers.length false
  else markLoop layers mlh (layers.length + 1) (List.replicate layers.length false) 0

theorem set_of_length_le {α : Type} (l : List α) (i : ℕ) (a : α)
    (h : l.length ≤ i) : l.set i a = l := by
  induction l generalizing i with
  | nil => simp
  | cons x r ih =>
    cases i with
    | zero => simp at h
    | succ j =>
      have : r.length ≤ j := by simpa using h
      simpa using ih j this

theorem findNextObject_spec (layers : List SkirtLayer) (fuel j0 : ℕ)
    (hf : layers.length - j0 < fuel) :
    findNextObject layers fuel j0 ≤ layers.length ∧
    (findNextObject layers fuel j0 ≠ layers.length →
      j0 ≤ findNextObject layers fuel j0 ∧
      findNextObject layers fuel j0 < layers.length ∧
      skirtObj layers (findNextObject layers fuel j0) = true) ∧
    (∀ t, j0 ≤ t → t < findNextObject layers fuel j0 →
      skirtObj layers t = false) := by
  induction fuel generalizing j0 with
  | zero => omega
  | succ f ih =>
    by_cases hjl : j0 < layers.length
    · by_cases hobj : skirtObj layers j0 = true
      · have hfe : findNextObject layers (f + 1) j0 = j0 := by
          rw [show findNextObject layers (f + 1) j0
              = if j0 < layers.length then
                  (if skirtObj layers j0 then j0
                   else findNextObject layers f (j0 + 1))
                else layers.length from rfl, if_pos hjl, if_pos hobj]
        rw [hfe]
        exact ⟨le_of_lt hjl, fun _ => ⟨le_refl _, hjl, hobj⟩,
          fun t ht1 ht2 => absurd (lt_of_le_of_lt ht1 ht2) (lt_irrefl j0)⟩
      · have hfe : findNextObject layers (f + 1) j0
            = findNextObject layers f (j0 + 1) := by
          rw [show findNextObject layers (f + 1) j0
              = if j0 < layers.length then
                  (if skirtObj layers j0 then j0
                   else findNextObject layers f (j0 + 1))
                else layers.length from rfl, if_pos hjl, if_neg hobj]
        have hrec := ih (j0 + 1) (by omega)
        rw [hfe]
        refine ⟨hrec.1, fun hne => ?_, fun t ht1 ht2 => ?_⟩
        · obtain ⟨h1, h2, h3⟩ := hrec.2.1 hne
          exact ⟨by omega, h2, h3⟩
        · by_cases htj : t = j0
          · subst htj
            simpa using hobj
          · exact hrec.2.2 t (by omega) ht2
    · have hfe : findNextObject layers (f + 1) j0 = layers.length := by
        rw [show findNextObject layers (f + 1) j0
            = if j0 < layers.length then
                (if skirtObj layers j0 then j0
                 else findNextObject layers f (j0 + 1))
              else layers.length from rfl, if_neg hjl]
      rw [hfe]
      exact ⟨le_refl _, fun hne => absurd rfl hne,
        fun t ht1 ht2 => by omega⟩

theorem skipDown_spec (layers : List SkirtLayer) (k : ℕ) :
    skipDown layers k ≤ k ∧
    (skipDown layers k = 0 ∨ skirtEmpty layers (skipDown layers k) = false) ∧
    ∀ m, skipDown layers k < m → m ≤ k → skirtEmpty layers m = true := by
  induction k with
  | zero => exact ⟨le_refl _, Or.inl rfl, fun m h1 h2 => by omega⟩
  | succ n ih =>
    by_cases he : skirtEmpty layers (n + 1) = true
    · have hfe : skipDown layers (n + 1) = skipDown layers n := by
        rw [show skipDown layers (n + 1)
            = if skirtEmpty layers (n + 1) then skipDown layers n
              else n + 1 from rfl, if_pos he]
      rw [hfe]
      refine ⟨ih.1.trans (Nat.le_succ n), ih.2.1, ?_⟩
      · intro m h1 h2
        by_cases hm : m = n + 1
        · subst hm; exact he
        · exact ih.2.2 m h1 (by omega)
    · have hfe : skipDown layers (n + 1) = n + 1 := by
        rw [show skipDown layers (n + 1)
            = if skirtEmpty layers (n + 1) then skipDown layers n
              else n + 1 from rfl, if_neg he]
      rw [hfe]
      exact ⟨le_refl _, Or.inr (by simpa using he),
        fun m h1 h2 => by omega⟩

theorem innerLoop_length (layers : List SkirtLayer) (mlh : ℚ) (j : ℕ)
    (fuel : ℕ) : ∀ k last_z marks,
    (innerLoop layers mlh j fuel k last_z marks).length = marks.length := by
  induction fuel with
  | zero => intro k last_z marks; rfl
  | succ f ih =>
    intro k last_z marks
    rw [show innerLoop layers mlh j (f + 1) k last_z marks
        = if k < j then
            (if skirtZ layers (k + 1) - last_z > mlh + EPS then
              (if marks.getD (skipDown layers k) false then marks
               else innerLoop layers mlh j f (skipDown layers k + 1)
                 (skirtZ layers (skipDown layers k))
                 (marks.set (skipDown layers k) true))
             else innerLoop layers mlh j f (k + 1) last_z marks)
          else marks from rfl]
    by_cases h1 : k < j
    · rw [if_pos h1]
      by_cases h2 : skirtZ layers (k + 1) - last_z > mlh + EPS
      · rw [if_pos h2]
        by_cases h3 : marks.getD (skipDown layers k) false = true
        · rw [if_pos h3]
        · rw [if_neg h3, ih]
          simp
      · rw [if_neg h2, ih]
    · rw [if_neg h1]

theorem innerLoop_mono (layers : List SkirtLayer) (mlh : ℚ) (j : ℕ)
    (fuel : ℕ) : ∀ k last_z marks t, marks.getD t false = true →
    (innerLoop layers mlh j fuel k last_z marks).getD t false = true := by
  induction fuel with
  | zero => intro k last_z marks t ht; exact ht
  | succ f ih =>
    intro k last_z marks t ht
    rw [show innerLoop layers mlh j (f + 1) k last_z marks
        = if k < j then
            (if skirtZ layers (k + 1) - last_z > mlh + EPS then
              (if marks.getD (skipDown layers k) false then marks
               else innerLoop layers mlh j f (skipDown layers k + 1)
                 (skirtZ layers (skipDown layers k))
                 (marks.set (skipDown layers k) true))
             else innerLoop layers mlh j f (k + 1) last_z marks)
          else marks from rfl]
    by_cases h1 : k < j
    · rw [if_pos h1]
      by_cases h2 : skirtZ layers (k + 1) - last_z > mlh + EPS
      · rw [if_pos h2]
        by_cases h3 : marks.getD (skipDown layers k) false = true
        · rw [if_pos h3]; exact ht
        · rw [if_neg h3]
          apply ih
          by_cases htk : t = skipDown layers k
          · rw [htk]
            by_cases hlt : skipDown layers k < marks.length
            · rw [getD_set_self marks (skipDown layers k) true false hlt]
            · rw [set_of_length_le marks (skipDown layers k) true (by omega),
                ← htk]
              exact ht
          · rw [getD_set_other marks (skipDown layers k) t true false
              (fun hc => htk hc.symm)]
            exact ht
      · rw [if_neg h2]; exact ih _ _ _ _ ht
    · rw [if_neg h1]; exact ht

theorem markLoop_spec (layers : List SkirtLayer) (mlh : ℚ) (fuel : ℕ) :
    ∀ marks i, layers.length - i < fuel → i < layers.length →
    marks.length = layers.length →
    (markLoop layers mlh fuel marks i).length = layers.length ∧
    (∀ t, marks.getD t false = true →
      (markLoop layers mlh fuel marks i).getD t false = true) ∧
    (markLoop layers mlh fuel marks i).getD i false = true ∧
    (∀ t, i < t → t < layers.length → skirtObj layers t = true →
      (markLoop layers mlh fuel marks i).getD t false = true) := by
  induction fuel with
  | zero => intro marks i hf; omega
  | succ f ih =>
    intro marks i hf hil hml
    have hfn := findNextObject_spec layers (layers.length + 1) (i + 1)
      (by omega)
    by_cases hj : findNextObject layers (layers.length + 1) (i + 1)
        = layers.length
    · have hfe : markLoop layers mlh (f + 1) marks i = marks.set i true := by
        rw [show markLoop layers mlh (f + 1) marks i
            = if findNextObject layers (layers.length + 1) (i + 1)
                = layers.length then marks.set i true
              else markLoop layers mlh f
                (innerLoop layers mlh
                  (findNextObject layers (layers.length + 1) (i + 1))
                  ((layers.length + 2) * (layers.length + 2)) (i + 1)
                  (skirtZ layers i) (marks.set i true))
                (findNextObject layers (layers.length + 1) (i + 1))
              from rfl, if_pos hj]
      rw [hfe]
      refine ⟨by simpa using hml, fun t ht => ?_, ?_, fun t ht1 ht2 hto => ?_⟩
      · by_cases hti : t = i
        · subst hti
          exact getD_set_self marks t true false (by omega)
        · rw [getD_set_other marks i t true false (fun hc => hti hc.symm)]
          exact ht
      · exact getD_set_self marks i true false (by omega)
      · exact absurd (hfn.2.2 t (by omega) (by omega)) (by simp [hto])
    · obtain ⟨hj1, hj2, hj3⟩ := hfn.2.1 hj
      have hfe : markLoop layers mlh (f + 1) marks i
          = markLoop layers mlh f
              (innerLoop layers mlh
                (findNextObject layers (layers.length + 1) (i + 1))
                ((layers.length + 2) * (layers.length + 2)) (i + 1)
                (skirtZ layers i) (marks.set i true))
              (findNextObject layers (layers.length + 1) (i + 1)) := by
        rw [show markLoop layers mlh (f + 1) marks i
            = if findNextObject layers (layers.length + 1) (i + 1)
                = layers.length then marks.set i true
              else markLoop layers mlh f
                (innerLoop layers mlh
                  (findNextObject layers (layers.length + 1) (i + 1))
                  ((layers.length + 2) * (layers.length + 2)) (i + 1)
                  (skirtZ layers i) (marks.set i true))
                (findNextObject layers (layers.length + 1) (i + 1))
              from rfl, if_neg hj]
      have hlen2 : (innerLoop layers mlh
          (findNextObject layers (layers.length + 1) (i + 1))
          ((layers.length + 2) * (layers.length + 2)) (i + 1)
          (skirtZ layers i) (marks.set i true)).length = layers.length := by
        rw [innerLoop_length]
        simpa using hml
      have hrec := ih _ (findNextObject layers (layers.length + 1) (i + 1))
        (by omega) hj2 hlen2
      rw [hfe]
      refine ⟨hrec.1, fun t ht => ?_, ?_, fun t ht1 ht2 hto => ?_⟩
      · apply hrec.2.1
        apply innerLoop_mono
        by_cases hti : t = i
        · subst hti
          exact getD_set_self marks t true false (by omega)
        · rw [getD_set_other marks i t true false (fun hc => hti hc.symm)]
          exact ht
      · apply hrec.2.1
        apply innerLoop_mono
        exact getD_set_self marks i true false (by omega)
      · by_cases htj : t < findNextObject layers (layers.length + 1) (i + 1)
        · exact absurd (hfn.2.2 t (by omega) htj) (by simp [hto])
        · by_cases hte : t = findNextObject layers (layers.length + 1) (i + 1)
          · subst hte
            exact hrec.2.2.1
          · exact hrec.2.2.2 t (by omega) ht2 hto

/-- Three object layers at z = 0, 10, 20, max layer height 1: layers 0
and 1 are both skirt-marked (they are successive object layers with no
intermediate layer between them), yet their vertical gap is 10, far above
`max_layer_height + EPSILON`. -/
def skirtCexLayers : List SkirtLayer :=
  [⟨0, false, true⟩, ⟨10, false, true⟩, ⟨20, false, true⟩]

theorem mark_skirt_layers_gap_cex :
    (mark_skirt_layers skirtCexLayers 1).getD 0 false = true ∧
    (mark_skirt_layers skirtCexLayers 1).getD 1 false = true ∧
    skirtZ skirtCexLayers 1 - skirtZ skirtCexLayers 0 > 1 + EPS := by
  have hrw : mark_skirt_layers skirtCexLayers 1
      = markLoop skirtCexLayers 1 (skirtCexLayers.length + 1)
          (List.replicate skirtCexLayers.length false) 0 := rfl
  have hspec := markLoop_spec skirtCexLayers 1 (skirtCexLayers.length + 1)
    (List.replicate skirtCexLayers.length false) 0
    (by simp [skirtCexLayers]) (by simp [skirtCexLayers]) (by simp)
  refine ⟨?_, ?_, ?_⟩
  · rw [hrw]; exact hspec.2.2.1
  · rw [hrw]
    exact hspec.2.2.2 1 (by omega) (by simp [skirtCexLayers]) rfl
  · norm_num [skirtZ, skirtCexLayers, defaultSkirtLayer, EPS]

/-- **C9** (corrected): with no layers or an empty first layer,
`mark_skirt_layers` marks nothing and raises no error; otherwise layer 0
is marked and every object-printing layer is marked, and the
empty-layer skip of lines 1267-1268 always lands on a non-empty layer
(or on layer 0) having skipped only empty layers.  The claim's gap bound
between consecutive marked layers is refuted by
`mark_skirt_layers_gap_cex`: successive object layers are both marked
regardless of their vertical distance. -/
theorem mark_skirt_layers_correct (layers : List SkirtLayer) (mlh : ℚ) :
    (mark_skirt_layers [] mlh = []) ∧
    (layers ≠ [] → (layers.headD defaultSkirtLayer).extr_empty = true →
      mark_skirt_layers layers mlh = List.replicate layers.length false) ∧
    (layers ≠ [] → (layers.headD defaultSkirtLayer).extr_empty = false →
      (mark_skirt_layers layers mlh).length = layers.length ∧
      (mark_skirt_layers layers mlh).getD 0 false = true ∧
      ∀ t, t < layers.length → skirtObj layers t = true →
        (mark_skirt_layers layers mlh).getD t false = true) ∧
    (∀ k, skipDown layers k ≤ k ∧
      (skipDown layers k = 0 ∨ skirtEmpty layers (skipDown layers k) = false) ∧
      ∀ m, skipDown layers k < m → m ≤ k → skirtEmpty layers m = true) := by
  refine ⟨rfl, ?_, ?_, skipDown_spec layers⟩
  · intro hne he
    rw [show mark_skirt_layers layers mlh
        = if layers.isEmpty then []
          else if (layers.headD defaultSkirtLayer).extr_empty then
            List.replicate layers.length false
          else markLoop layers mlh (layers.length + 1)
            (List.replicate layers.length false) 0 from rfl,
      if_neg (by simpa using hne), if_pos he]
  · intro hne he
    have hee : ¬ ((layers.headD defaultSkirtLayer).extr_empty = true) := by
      intro hc
      rw [he] at hc
      exact absurd hc (by decide)
    have hrw : mark_skirt_layers layers mlh
        = markLoop layers mlh (layers.length + 1)
            (List.replicate layers.length false) 0 := by
      rw [show mark_skirt_layers layers mlh
          = if layers.isEmpty then []
            else if (layers.headD defaultSkirtLayer).extr_empty then
              List.replicate layers.length false
            else markLoop layers mlh (layers.length + 1)
              (List.replicate layers.length false) 0 from rfl,
        if_neg (by simpa using hne), if_neg hee]
    have hpos : 0 < layers.length := List.length_pos.mpr hne
    have hspec := markLoop_spec layers mlh (layers.length + 1)
      (List.replicate layers.length false) 0 (by omega) hpos (by simp)
    rw [hrw]
    refine ⟨hspec.1, hspec.2.2.1, fun t ht hto => ?_⟩
    by_cases ht0 : t = 0
    · subst ht0; exact hspec.2.2.1
    · exact hspec.2.2.2 t (by omega) ht hto

/-- Witness for C9: a single empty-first-layer job yields no marks; a
single non-empty object layer gets its skirt mark. -/
theorem mark_skirt_layers_correct_witness :
    mark_skirt_layers [(⟨0, true, true⟩ : SkirtLayer)] 1
      = List.replicate 1 false ∧
    (mark_skirt_layers [(⟨0, false, true⟩ : SkirtLayer)] 1).getD 0 false
      = true :=
  ⟨(mark_skirt_layers_correct [⟨0, true, true⟩] 1).2.1
      (List.cons_ne_nil _ _) rfl,
   ((mark_skirt_layers_correct [⟨0, false, true⟩] 1).2.2.1
      (List.cons_ne_nil _ _) rfl).2.1⟩

/-! ### C7: WipingExtrusions::mark_wiping_extrusions (lines 1472-1609)

Extrusion roles, entity collections, regions, objects and the layer's
tool information are embedded just deep enough for lines 1472-1609 and
the helpers they call (`is_overriddable` lines 1437-1449,
`LayerTools::is_extruder_order` lines 117-130, `LayerTools::extruder`
lines 151-164, `LayerTools::wall_filament` lines 133-137).  Volumes are
ℚ.  The three early `return` statements inside the loops are modelled
with a `done` flag on the threaded state: once set, every remaining step
is the identity.  The override registries (`entity_map`, `support_map`,
`support_intf_map`) are lists of newly written keys plus predicates for
entries already present when the call starts; the membership tests
`is_entity_overridden` / `is_support_overridden` /
`is_support_interface_overridden` are header-only accessors not under
src/ and are modelled from the spec as lookups in those registries. -/

inductive ERole where
  | erPerimeter
  | erInternalInfill
  | erSolidInfill
  | erMixed
  | erSupportMaterial
  | erSupportTransition
  | erSupportMaterialInterface
deriving DecidableEq

def isInfillRole : ERole → Bool
  | ERole.erInternalInfill => true
  | ERole.erSolidInfill => true
  | _ => false

def isSolidInfillRole : ERole → Bool
  | ERole.erSolidInfill => true
  | _ => false

/-- An `ExtrusionEntityCollection` as seen by lines 1530-1566: its role,
the role of its first entity (used by `LayerTools::extruder`), its
`total_volume()` and an identity for the `entity_map` key. -/
structure EColl where
  cid : ℕ
  role : ERole
  frontRole : ERole
  volume : ℚ

/-- A single support extrusion entity (lines 1584-1601). -/
structure SEnt where
  role : ERole
  volume : ℚ

/-- The slice of `PrintRegion` config used here (1-based filaments). -/
structure Region where
  wall_filament : ℕ
  sparse_infill_filament : ℕ
  solid_infill_filament : ℕ
  fills : List EColl
  perimeters : List EColl

structure PObjCfg where
  flush_into_objects : Bool
  flush_into_infill : Bool
  flush_into_support : Bool
  support_filament : ℕ
  support_interface_filament : ℕ
  support_interface_not_for_body : Bool

/-- A `PrintObject`: `layer_regions = none` models
`get_layer_at_printz` returning `nullptr` (line 1513), and
`support_layer = none` models `get_support_layer_at_printz` returning
`nullptr` (line 1570). -/
structure PObj where
  oid : ℕ
  config : PObjCfg
  num_of_copies : ℕ
  layer_regions : Option (List Region)
  support_layer : Option (List SEnt)

/-- The slice of `PrintConfig` used by lines 1477-1529. -/
structure WipeCfg where
  filament_soluble : List Bool
  filament_is_support : List Bool
  is_infill_first : Bool

/-- The slice of `LayerTools` used here. -/
structure LTools where
  extruders : List ℕ
  extruder_override : ℕ

/-- Lines 122-129: the scan of `LayerTools::is_extruder_order`. -/
def extruderOrderGo (a b : ℕ) : List ℕ → Bool
  | [] => false
  | e :: r => if e = a then true else if e = b then false else extruderOrderGo a b r

/-- Lines 117-130. -/
def is_extruder_order (lt : LTools) (a b : ℕ) : Bool :=
  if a = b then false else extruderOrderGo a b lt.extruders

/-- Lines 133-137 (`- 1` is ℕ truncated subtraction, matching the
`(extruder == 0) ? 0 : extruder - 1` convention of line 163). -/
def lt_wall_filament (lt : LTools) (region : Region) : ℕ :=
  (if lt.extruder_override = 0 then region.wall_filament
   else lt.extruder_override) - 1

/-- Lines 151-164: `LayerTools::extruder`. -/
def lt_extruder (lt : LTools) (ec : EColl) (region : Region) : ℕ :=
  (if lt.extruder_override = 0 then
    (if isInfillRole ec.role then
      (if isSolidInfillRole ec.frontRole then region.solid_infill_filament
       else region.sparse_infill_filament)
     else region.wall_filament)
   else lt.extruder_override) - 1

/-- Lines 1437-1449: `WipingExtrusions::is_overriddable`. -/
def is_overriddable (lt : LTools) (cfg : WipeCfg) (obj : PObj) (ec : EColl)
    (region : Region) : Bool :=
  if getAt cfg.filament_soluble false (lt_extruder lt ec region) = true then false
  else if obj.config.flush_into_objects = true then true
  else if obj.config.flush_into_infill = false ∨ ec.role ≠ ERole.erInternalInfill
    then false
  else true

/-- The threaded state: remaining `volume_to_wipe`, the total volume
subtracted so far, the newly written override keys
(`(collection id, object id, copy)` for `entity_map`, object ids for
`support_map` / `support_intf_map`), and the `done` flag standing for
the early `return 0.f` statements. -/
structure WipeState where
  volume : ℚ
  subtracted : ℚ
  entOv : List (ℕ × ℕ × ℕ)
  supOv : List ℕ
  supIntfOv : List ℕ
  done : Bool

/-- Modelled from the spec: `is_entity_overridden` looks the key up in
`entity_map`; entries present before the call are the predicate
`initEnt`. -/
def entOverridden (initEnt : ℕ → ℕ → ℕ → Bool) (st : WipeState)
    (cid oid copy : ℕ) : Bool :=
  initEnt cid oid copy || st.entOv.contains (cid, oid, copy)

/-- Modelled from the spec: `is_support_overridden`. -/
def supOverridden (initSup : ℕ → Bool) (st : WipeState) (oid : ℕ) : Bool :=
  initSup oid || st.supOv.contains oid

/-- Modelled from the spec: `is_support_interface_overridden`. -/
def supIntfOverridden (initIntf : ℕ → Bool) (st : WipeState) (oid : ℕ) : Bool :=
  initIntf oid || st.supIntfOv.contains oid

/-- `volume_to_wipe -= vol` followed by the `<= 0` early-return check
(lines 1546-1549, 1559-1561, 1587-1590, 1596-1599). -/
def spend (st : WipeState) (vol : ℚ) : WipeState :=
  { st with volume := st.volume - vol, subtracted := st.subtracted + vol,
            done := decide (st.volume - vol ≤ 0) }

/-- Lines 1531-1550: one infill collection.  The `wipe_into_infill_only
&& !is_infill_first` guard rechecks the extruder order (lines 1536-1540);
an eligible, not yet overridden, positive-volume collection is marked
for `new_extruder` and its volume subtracted. -/
def stepFill (lt : LTools) (cfg : WipeCfg) (obj : PObj) (region : Region)
    (copy new_extruder : ℕ) (wipe_into_infill_only : Bool)
    (initEnt : ℕ → ℕ → ℕ → Bool) (st : WipeState) (ec : EColl) : WipeState :=
  if st.done then st
  else if !is_overriddable lt cfg obj ec region then st
  else if wipe_into_infill_only && !cfg.is_infill_first &&
      !is_extruder_order lt (lt_wall_filament lt region) new_extruder then st
  else if entOverridden initEnt st ec.cid obj.oid copy = false ∧ ec.volume > 0 then
    { spend st ec.volume with entOv := (ec.cid, obj.oid, copy) :: st.entOv }
  else st

/-- Lines 1553-1564: one perimeter collection. -/
def stepPerim (lt : LTools) (cfg : WipeCfg) (obj : PObj) (region : Region)
    (copy : ℕ) (initEnt : ℕ → ℕ → ℕ → Bool) (st : WipeState)
    (ec : EColl) : WipeState :=
  if st.done then st
  else if is_overriddable lt cfg obj ec region = true ∧
      entOverridden initEnt st ec.cid obj.oid copy = false ∧ ec.volume > 0 then
    { spend st ec.volume with entOv := (ec.cid, obj.oid, copy) :: st.entOv }
  else st

/-- Lines 1584-1590 and 1593-1599: one support entity; volume is
subtracted when the role matches, and `volume_to_wipe <= 0` is checked
after every entity. -/
def stepSupEnt (matchRole : ERole → Bool) (st : WipeState)
    (ee : SEnt) : WipeState :=
  if st.done then st
  else if matchRole ee.role then spend st ee.volume
  else { st with done := decide (st.volume ≤ 0) }

def supBodyRole (r : ERole) : Bool :=
  r = ERole.erSupportMaterial || r = ERole.erSupportTransition

def supIntfRole (r : ERole) : Bool :=
  r = ERole.erSupportMaterialInterface

/-- Lines 1521-1566: one `LayerRegion` for one copy. -/
def stepRegion (lt : LTools) (cfg : WipeCfg) (obj : PObj)
    (copy new_extruder : ℕ) (perimeters_done : Bool)
    (initEnt : ℕ → ℕ → ℕ → Bool) (st : WipeState)
    (region : Region) : WipeState :=
  if st.done then st
  else if obj.config.flush_into_infill = false ∧
      obj.config.flush_into_objects = false ∧
      obj.config.flush_into_support = false then st
  else
    (if obj.config.flush_into_objects = true ∧
        cfg.is_infill_first = perimeters_done then
      (fun s => region.perimeters.foldl
        (stepPerim lt cfg obj region copy initEnt) s)
     else id)
    (if ¬(cfg.is_infill_first = perimeters_done) ∨
        (obj.config.flush_into_objects = false ∧
         obj.config.flush_into_infill = true) then
      region.fills.foldl
        (stepFill lt cfg obj region copy new_extruder
          (!obj.config.flush_into_objects && obj.config.flush_into_infill)
          initEnt) st
     else st)

/-- Lines 1581-1590: the support-body pass (mark `support_map`, subtract
`erSupportMaterial`/`erSupportTransition` volumes), guarded by the
`support_interface_not_for_body` exclusion. -/
def supBodyPhase (obj : PObj) (new_extruder old_extruder : ℕ)
    (initSup : ℕ → Bool) (entities : List SEnt) (st : WipeState) : WipeState :=
  if obj.config.support_filament = 0 ∧
      supOverridden initSup st obj.oid = false ∧
      ¬(obj.config.support_interface_not_for_body = true ∧
        obj.config.support_interface_filament ≠ 0 ∧
        (new_extruder = obj.config.support_interface_filament - 1 ∨
         old_extruder = obj.config.support_interface_filament - 1)) then
    entities.foldl (stepSupEnt supBodyRole)
      { st with supOv := obj.oid :: st.supOv }
  else st

/-- Lines 1592-1599: the support-interface pass (mark `support_intf_map`,
subtract `erSupportMaterialInterface` volumes); an early return from the
body pass (`done`) skips it. -/
def supIntfPhase (obj : PObj) (initIntf : ℕ → Bool) (entities : List SEnt)
    (s2 : WipeState) : WipeState :=
  if s2.done then s2
  else if obj.config.support_interface_filament = 0 ∧
      supIntfOverridden initIntf s2 obj.oid = false then
    entities.foldl (stepSupEnt supIntfRole)
      { s2 with supIntfOv := obj.oid :: s2.supIntfOv }
  else s2

/-- Lines 1568-1603: the support block for one copy. -/
def stepSupport (obj : PObj) (new_extruder old_extruder : ℕ)
    (initSup initIntf : ℕ → Bool) (st : WipeState) : WipeState :=
  if st.done then st
  else if !obj.config.flush_into_support then st
  else
    match obj.support_layer with
    | none => st
    | some entities =>
      if obj.config.support_filament ≠ 0 ∧
          obj.config.support_interface_filament ≠ 0 then st
      else
        supIntfPhase obj initIntf entities
          (supBodyPhase obj new_extruder old_extruder initSup entities st)

/-- Lines 1519-1604: one copy = all layer regions, then the support
block. -/
def stepCopy (lt : LTools) (cfg : WipeCfg) (obj : PObj)
    (new_extruder old_extruder : ℕ) (perimeters_done : Bool)
    (initEnt : ℕ → ℕ → ℕ → Bool) (initSup initIntf : ℕ → Bool)
    (regions : List Region) (st : WipeState) (copy : ℕ) : WipeState :=
  stepSupport obj new_extruder old_extruder initSup initIntf
    (regions.foldl
      (stepRegion lt cfg obj copy new_extruder perimeters_done initEnt) st)

/-- Lines 1510-1605: one object; a missing layer at this print_z skips
the object (line 1513). -/
def stepObject (lt : LTools) (cfg : WipeCfg)
    (new_extruder old_extruder : ℕ) (perimeters_done : Bool)
    (initEnt : ℕ → ℕ → ℕ → Bool) (initSup initIntf : ℕ → Bool)
    (st : WipeState) (obj : PObj) : WipeState :=
  if st.done then st
  else
    match obj.layer_regions with
    | none => st
    | some regions =>
      (List.range obj.num_of_copies).foldl
        (stepCopy lt cfg obj new_extruder old_extruder perimeters_done
          initEnt initSup initIntf regions) st

/-- Lines 1487-1494: the `std::sort` comparator — dedicated objects
(`flush_into_objects`) first, ties by object id. -/
def objBefore (a b : PObj) : Bool :=
  if a.config.flush_into_objects ≠ b.config.flush_into_objects then
    a.config.flush_into_objects
  else decide (a.oid < b.oid)

def insertObj (a : PObj) : List PObj → List PObj
  | [] => [a]
  | b :: r => if objBefore a b then a :: b :: r else b :: insertObj a r

def sortObjects : List PObj → List PObj
  | [] => []
  | a :: r => insertObj a (sortObjects r)

/-- Line 1608 (`return volume_to_wipe`) and the early `return 0.f`
statements folded into `done`. -/
def mweFinish (stF : WipeState) : ℚ × WipeState :=
  (if stF.done then 0 else stF.volume, stF)

/-- Lines 1503-1509: the first sweep (`perimeters_done = false`) covers
the leading dedicated objects of the sorted list; hitting the first
non-dedicated object (or the end) restarts from the beginning with
`perimeters_done = true`, covering every object. -/
def mark_wiping_extrusions (lt : LTools) (cfg : WipeCfg) (objs : List PObj)
    (initEnt : ℕ → ℕ → ℕ → Bool) (initSup initIntf : ℕ → Bool)
    (old_extruder new_extruder : ℕ) (volume_to_wipe : ℚ)
    (something_overridable : Bool) : ℚ × WipeState :=
  if something_overridable = false ∨ volume_to_wipe ≤ 0 ∨
      getAt cfg.filament_soluble false old_extruder = true ∨
      getAt cfg.filament_soluble false new_extruder = true then
    (max 0 volume_to_wipe, ⟨volume_to_wipe, 0, [], [], [], false⟩)
  else if getAt cfg.filament_is_support false old_extruder = true ∨
      getAt cfg.filament_is_support false new_extruder = true then
    (max 0 volume_to_wipe, ⟨volume_to_wipe, 0, [], [], [], false⟩)
  else
    mweFinish
      ((sortObjects objs).foldl
        (stepObject lt cfg new_extruder old_extruder true
          initEnt initSup initIntf)
        (((sortObjects objs).takeWhile
            (fun o => o.config.flush_into_objects)).foldl
          (stepObject lt cfg new_extruder old_extruder false
            initEnt initSup initIntf)
          ⟨volume_to_wipe, 0, [], [], [], false⟩))


/-- The loop invariant of `mark_wiping_extrusions`: the remaining volume
is the initial request minus everything subtracted so far, it is
strictly positive while the function has not early-returned, and
non-positive once it has. -/
def WInv (v0 : ℚ) (st : WipeState) : Prop :=
  st.volume = v0 - st.subtracted ∧
  (st.done = false → 0 < st.volume) ∧
  (st.done = true → st.volume ≤ 0)

theorem WInv_spend (v0 : ℚ) (st : WipeState) (vol : ℚ)
    (h : WInv v0 st) : WInv v0 (spend st vol) := by
  obtain ⟨h1, h2, h3⟩ := h
  refine ⟨?_, ?_, ?_⟩
  · show st.volume - vol = v0 - (st.subtracted + vol)
    rw [h1]; ring
  · intro hd
    have : ¬ (st.volume - vol ≤ 0) := by
      simpa [spend] using hd
    show (0:ℚ) < st.volume - vol
    linarith
  · intro hd
    have : st.volume - vol ≤ 0 := by
      simpa [spend] using hd
    exact this

theorem WInv_spendMark (v0 : ℚ) (st : WipeState) (vol : ℚ)
    (e : List (ℕ × ℕ × ℕ)) (h : WInv v0 st) :
    WInv v0 { spend st vol with entOv := e } := by
  obtain ⟨h1, h2, h3⟩ := WInv_spend v0 st vol h
  exact ⟨h1, h2, h3⟩

theorem WInv_markSup (v0 : ℚ) (st : WipeState) (l : List ℕ)
    (h : WInv v0 st) : WInv v0 { st with supOv := l } := by
  obtain ⟨h1, h2, h3⟩ := h
  exact ⟨h1, h2, h3⟩

theorem WInv_markSupIntf (v0 : ℚ) (st : WipeState) (l : List ℕ)
    (h : WInv v0 st) : WInv v0 { st with supIntfOv := l } := by
  obtain ⟨h1, h2, h3⟩ := h
  exact ⟨h1, h2, h3⟩

theorem WInv_checkDone (v0 : ℚ) (st : WipeState)
    (h : WInv v0 st) : WInv v0 { st with done := decide (st.volume ≤ 0) } := by
  obtain ⟨h1, h2, h3⟩ := h
  refine ⟨h1, ?_, ?_⟩
  · intro hd
    have : ¬ (st.volume ≤ 0) := by simpa using hd
    show (0:ℚ) < st.volume
    linarith
  · intro hd
    have : st.volume ≤ 0 := by simpa using hd
    exact this

theorem WInv_foldl {β : Type} (v0 : ℚ) (f : WipeState → β → WipeState)
    (l : List β) (s : WipeState) (h : WInv v0 s)
    (hf : ∀ s2 x, WInv v0 s2 → WInv v0 (f s2 x)) :
    WInv v0 (l.foldl f s) := by
  induction l generalizing s with
  | nil => exact h
  | cons x r ih => exact ih (f s x) (hf s x h)

theorem WInv_stepFill (v0 : ℚ) (lt : LTools) (cfg : WipeCfg) (obj : PObj)
    (region : Region) (copy new_extruder : ℕ) (wio : Bool)
    (initEnt : ℕ → ℕ → ℕ → Bool) (st : WipeState) (ec : EColl)
    (h : WInv v0 st) :
    WInv v0 (stepFill lt cfg obj region copy new_extruder wio initEnt st ec) := by
  unfold stepFill
  split_ifs with h1 h2 h3 h4
  · exact h
  · exact h
  · exact h
  · exact WInv_spendMark v0 st ec.volume _ h
  · exact h

theorem WInv_stepPerim (v0 : ℚ) (lt : LTools) (cfg : WipeCfg) (obj : PObj)
    (region : Region) (copy : ℕ) (initEnt : ℕ → ℕ → ℕ → Bool)
    (st : WipeState) (ec : EColl) (h : WInv v0 st) :
    WInv v0 (stepPerim lt cfg obj region copy initEnt st ec) := by
  unfold stepPerim
  split_ifs with h1 h2
  · exact h
  · exact WInv_spendMark v0 st ec.volume _ h
  · exact h

theorem WInv_stepSupEnt (v0 : ℚ) (mr : ERole → Bool) (st : WipeState)
    (ee : SEnt) (h : WInv v0 st) : WInv v0 (stepSupEnt mr st ee) := by
  unfold stepSupEnt
  split_ifs with h1 h2
  · exact h
  · exact WInv_spend v0 st ee.volume h
  · exact WInv_checkDone v0 st h

theorem WInv_stepRegion (v0 : ℚ) (lt : LTools) (cfg : WipeCfg) (obj : PObj)
    (copy new_extruder : ℕ) (pd : Bool) (initEnt : ℕ → ℕ → ℕ → Bool)
    (st : WipeState) (region : Region) (h : WInv v0 st) :
    WInv v0 (stepRegion lt cfg obj copy new_extruder pd initEnt st region) := by
  unfold stepRegion
  split_ifs with h1 h2 h3 h4 h5 h6
  all_goals
    first
    | exact h
    | (apply WInv_foldl v0 _ _ _ _ (fun s2 x hx => WInv_stepPerim v0 lt cfg obj region copy initEnt s2 x hx)
       first
       | exact WInv_foldl v0 _ _ _ h (fun s2 x hx => WInv_stepFill v0 lt cfg obj region copy new_extruder _ initEnt s2 x hx)
       | exact h)
    | exact WInv_foldl v0 _ _ _ h (fun s2 x hx => WInv_stepFill v0 lt cfg obj region copy new_extruder _ initEnt s2 x hx)

theorem WInv_supBodyPhase (v0 : ℚ) (obj : PObj)
    (new_extruder old_extruder : ℕ) (initSup : ℕ → Bool)
    (entities : List SEnt) (st : WipeState) (h : WInv v0 st) :
    WInv v0 (supBodyPhase obj new_extruder old_extruder initSup
      entities st) := by
  unfold supBodyPhase
  split_ifs with h1
  · exact WInv_foldl v0 _ _ _ (WInv_markSup v0 _ _ h)
      (fun s2 x hx => WInv_stepSupEnt v0 supBodyRole s2 x hx)
  · exact h

theorem WInv_supIntfPhase (v0 : ℚ) (obj : PObj) (initIntf : ℕ → Bool)
    (entities : List SEnt) (st : WipeState) (h : WInv v0 st) :
    WInv v0 (supIntfPhase obj initIntf entities st) := by
  unfold supIntfPhase
  split_ifs with h1 h2
  · exact h
  · exact WInv_foldl v0 _ _ _ (WInv_markSupIntf v0 _ _ h)
      (fun s2 x hx => WInv_stepSupEnt v0 supIntfRole s2 x hx)
  · exact h

theorem WInv_stepSupport (v0 : ℚ) (obj : PObj)
    (new_extruder old_extruder : ℕ) (initSup initIntf : ℕ → Bool)
    (st : WipeState) (h : WInv v0 st) :
    WInv v0 (stepSupport obj new_extruder old_extruder
      initSup initIntf st) := by
  cases hsl : obj.support_layer with
  | none =>
    simp only [stepSupport, hsl]
    split_ifs <;> exact h
  | some entities =>
    simp only [stepSupport, hsl]
    split_ifs with h1 h2 h3
    · exact h
    · exact h
    · exact h
    · exact WInv_supIntfPhase v0 obj initIntf entities _
        (WInv_supBodyPhase v0 obj new_extruder old_extruder initSup
          entities st h)

theorem WInv_stepObject (v0 : ℚ) (lt : LTools) (cfg : WipeCfg)
    (new_extruder old_extruder : ℕ) (pd : Bool)
    (initEnt : ℕ → ℕ → ℕ → Bool) (initSup initIntf : ℕ → Bool)
    (st : WipeState) (obj : PObj) (h : WInv v0 st) :
    WInv v0 (stepObject lt cfg new_extruder old_extruder pd
      initEnt initSup initIntf st obj) := by
  unfold stepObject
  split_ifs with h1
  · exact h
  · cases hlr : obj.layer_regions with
    | none => exact h
    | some regions =>
      apply WInv_foldl v0 _ _ _ h
      intro s2 x hx
      unfold stepCopy
      apply WInv_stepSupport
      exact WInv_foldl v0 _ _ _ hx
        (fun s3 y hy =>
          WInv_stepRegion v0 lt cfg obj x new_extruder pd initEnt s3 y hy)


theorem mweResult (v0 : ℚ) (stF : WipeState) (hI : WInv v0 stF) :
    0 ≤ (mweFinish stF).1 ∧
    (mweFinish stF).1 = max 0 (v0 - (mweFinish stF).2.subtracted) ∧
    ((mweFinish stF).1 = 0 ↔ v0 ≤ (mweFinish stF).2.subtracted) := by
  obtain ⟨h1, h2, h3⟩ := hI
  by_cases hd : stF.done = true
  · have hv : stF.volume ≤ 0 := h3 hd
    have hs : v0 - stF.subtracted ≤ 0 := by rw [← h1]; exact hv
    have hfe : (mweFinish stF).1 = 0 := by
      simp only [mweFinish]
      rw [if_pos hd]
    have hsub : (mweFinish stF).2.subtracted = stF.subtracted := rfl
    rw [hfe, hsub]
    refine ⟨le_refl 0, ?_, ?_⟩
    · rw [max_eq_left hs]
    · exact ⟨fun _ => by linarith, fun _ => rfl⟩
  · have hd2 : stF.done = false := by
      cases hdd : stF.done
      · rfl
      · exact absurd hdd hd
    have hv : 0 < stF.volume := h2 hd2
    have hs : 0 < v0 - stF.subtracted := by rw [← h1]; exact hv
    have hfe : (mweFinish stF).1 = stF.volume := by
      simp only [mweFinish]
      rw [if_neg hd]
    have hsub : (mweFinish stF).2.subtracted = stF.subtracted := rfl
    rw [hfe, hsub]
    refine ⟨le_of_lt hv, ?_, ?_⟩
    · rw [h1, max_eq_right (le_of_lt hs)]
    · constructor
      · intro h0
        rw [h0] at hv
        exact absurd hv (lt_irrefl 0)
      · intro hle
        exfalso
        linarith

/-- **C7**: `mark_wiping_extrusions` returns the purge volume still left
for the wipe tower: the result is always `≥ 0`; it always equals
`max 0 (volume_to_wipe - subtracted)` where `subtracted` is the total
volume absorbed by the marked candidates, hence it is `0` exactly when
the candidates absorbed at least the requested volume; and when the
outgoing or incoming filament is soluble or is a dedicated support
filament, nothing is marked, nothing is subtracted, and the request is
returned clamped at zero (`max 0 volume_to_wipe`). -/
theorem mark_wiping_extrusions_correct (lt : LTools) (cfg : WipeCfg)
    (objs : List PObj) (initEnt : ℕ → ℕ → ℕ → Bool)
    (initSup initIntf : ℕ → Bool) (old_extruder new_extruder : ℕ)
    (v : ℚ) (so : Bool) :
    0 ≤ (mark_wiping_extrusions lt cfg objs initEnt initSup initIntf
      old_extruder new_extruder v so).1 ∧
    (mark_wiping_extrusions lt cfg objs initEnt initSup initIntf
      old_extruder new_extruder v so).1
      = max 0 (v - (mark_wiping_extrusions lt cfg objs initEnt initSup
          initIntf old_extruder new_extruder v so).2.subtracted) ∧
    ((mark_wiping_extrusions lt cfg objs initEnt initSup initIntf
      old_extruder new_extruder v so).1 = 0 ↔
      v ≤ (mark_wiping_extrusions lt cfg objs initEnt initSup initIntf
        old_extruder new_extruder v so).2.subtracted) ∧
    (getAt cfg.filament_soluble false old_extruder = true ∨
     getAt cfg.filament_soluble false new_extruder = true ∨
     getAt cfg.filament_is_support false old_extruder = true ∨
     getAt cfg.filament_is_support false new_extruder = true →
      (mark_wiping_extrusions lt cfg objs initEnt initSup initIntf
        old_extruder new_extruder v so).1 = max 0 v ∧
      (mark_wiping_extrusions lt cfg objs initEnt initSup initIntf
        old_extruder new_extruder v so).2.subtracted = 0 ∧
      (mark_wiping_extrusions lt cfg objs initEnt initSup initIntf
        old_extruder new_extruder v so).2.entOv = [] ∧
      (mark_wiping_extrusions lt cfg objs initEnt initSup initIntf
        old_extruder new_extruder v so).2.supOv = [] ∧
      (mark_wiping_extrusions lt cfg objs initEnt initSup initIntf
        old_extruder new_extruder v so).2.supIntfOv = []) := by
  unfold mark_wiping_extrusions
  split_ifs with hg1 hg2
  · refine ⟨le_max_left 0 v, ?_, ?_, fun _ => ⟨rfl, rfl, rfl, rfl, rfl⟩⟩
    · show max 0 v = max 0 (v - (0:ℚ))
      rw [sub_zero]
    · show max 0 v = 0 ↔ v ≤ (0:ℚ)
      constructor
      · intro h
        by_contra hc
        push_neg at hc
        rw [max_eq_right (le_of_lt hc)] at h
        linarith
      · intro h
        rw [max_eq_left h]
  · refine ⟨le_max_left 0 v, ?_, ?_, fun _ => ⟨rfl, rfl, rfl, rfl, rfl⟩⟩
    · show max 0 v = max 0 (v - (0:ℚ))
      rw [sub_zero]
    · show max 0 v = 0 ↔ v ≤ (0:ℚ)
      constructor
      · intro h
        by_contra hc
        push_neg at hc
        rw [max_eq_right (le_of_lt hc)] at h
        linarith
      · intro h
        rw [max_eq_left h]
  · have hv : 0 < v := by
      push_neg at hg1
      linarith [hg1.2.1]
    have h0 : WInv v (⟨v, 0, [], [], [], false⟩ : WipeState) := by
      refine ⟨?_, fun _ => hv, fun hd => ?_⟩
      · show v = v - 0
        rw [sub_zero]
      · exact absurd hd (by simp)
    have hI : WInv v
        ((sortObjects objs).foldl
          (stepObject lt cfg new_extruder old_extruder true
            initEnt initSup initIntf)
          (((sortObjects objs).takeWhile
              (fun o => o.config.flush_into_objects)).foldl
            (stepObject lt cfg new_extruder old_extruder false
              initEnt initSup initIntf)
            ⟨v, 0, [], [], [], false⟩)) := by
      apply WInv_foldl v _ _ _ _
        (fun s2 x hx => WInv_stepObject v lt cfg new_extruder old_extruder
          true initEnt initSup initIntf s2 x hx)
      exact WInv_foldl v _ _ _ h0
        (fun s2 x hx => WInv_stepObject v lt cfg new_extruder old_extruder
          false initEnt initSup initIntf s2 x hx)
    obtain ⟨r1, r2, r3⟩ := mweResult v _ hI
    refine ⟨r1, r2, r3, fun hyp => ?_⟩
    rcases hyp with h | h | h | h
    · exact absurd (Or.inr (Or.inr (Or.inl h))) hg1
    · exact absurd (Or.inr (Or.inr (Or.inr h))) hg1
    · exact absurd (Or.inl h) hg2
    · exact absurd (Or.inr h) hg2

/-- Witness for C7: a soluble outgoing filament (filament 0) makes the
call a no-op — request returned clamped, nothing subtracted, nothing
marked. -/
theorem mark_wiping_extrusions_correct_witness :
    (mark_wiping_extrusions ⟨[0], 0⟩ ⟨[true], [false], false⟩ []
      (fun _ _ _ => false) (fun _ => false) (fun _ => false)
      0 0 5 true).1 = max 0 5 ∧
    (mark_wiping_extrusions ⟨[0], 0⟩ ⟨[true], [false], false⟩ []
      (fun _ _ _ => false) (fun _ => false) (fun _ => false)
      0 0 5 true).2.subtracted = 0 ∧
    (mark_wiping_extrusions ⟨[0], 0⟩ ⟨[true], [false], false⟩ []
      (fun _ _ _ => false) (fun _ => false) (fun _ => false)
      0 0 5 true).2.entOv = [] ∧
    (mark_wiping_extrusions ⟨[0], 0⟩ ⟨[true], [false], false⟩ []
      (fun _ _ _ => false) (fun _ => false) (fun _ => false)
      0 0 5 true).2.supOv = [] ∧
    (mark_wiping_extrusions ⟨[0], 0⟩ ⟨[true], [false], false⟩ []
      (fun _ _ _ => false) (fun _ => false) (fun _ => false)
      0 0 5 true).2.supIntfOv = [] :=
  (mark_wiping_extrusions_correct ⟨[0], 0⟩ ⟨[true], [false], false⟩ []
    (fun _ _ _ => false) (fun _ => false) (fun _ => false)
    0 0 5 true).2.2.2 (Or.inl rfl)

end ToolOrd
